import Mathlib

/-!
Verification development for the rumqttd router core
(`src/rumqttd/src/router/{routing,logs,scheduler}.rs`).

The Rust sources are shallowly embedded: pure functions become Lean
functions, stateful methods become explicit state passing, `panic!`-like
exits (`unwrap` on a missing slab entry, `assert_eq!`, `debug_assert!`)
become `Option`/`none`, fallible functions become `Except`.  Machine
integers (`u16`, `u64`, `usize`) are modelled as `Nat`: none of the
verified paths exercises wrap-around.  Topics and filters are modelled as
the decoded UTF-8 strings (`std::str::from_utf8` is total on the modelled
inputs).
-/

namespace Rumqttd

/-- Dense connection identifier (a `slab` key). -/
abbrev ConnectionId := Nat

/-- Dense filter-log identifier (index into `DataLog.native`). -/
abbrev FilterIdx := Nat

/-- Subscription filter, e.g. `hello/+/world`. -/
abbrev Filter := String

/-- Concrete publish topic. -/
abbrev Topic := String

/-- Commit-log cursor `(segment_id, position_within_segment)`. -/
abbrev Offset := Nat × Nat

/-- MQTT quality of service, as in `protocol::QoS`. -/
inductive QoS where
  | AtMostOnce
  | AtLeastOnce
  | ExactlyOnce
deriving DecidableEq

/-- Numeric value of a `QoS` (the `as u8` cast in the source). -/
def QoS.toNat : QoS → Nat
  | .AtMostOnce => 0
  | .AtLeastOnce => 1
  | .ExactlyOnce => 2

/-- `protocol::qos`: the partial inverse of the `u8` cast. -/
def protocolQos : Nat → Option QoS
  | 0 => some QoS.AtMostOnce
  | 1 => some QoS.AtLeastOnce
  | 2 => some QoS.ExactlyOnce
  | _ => none

/-- `protocol::Publish`.  The topic is kept as the decoded UTF-8 string;
the payload as a byte list. -/
structure Publish where
  dup : Bool
  qos : QoS
  retain : Bool
  topic : Topic
  pkid : Nat
  payload : List Nat
deriving DecidableEq

/-- Byte size of a publish (the `Storage::size` used for metering). -/
def Publish.size (p : Publish) : Nat :=
  p.topic.length + p.payload.length

/-- Split a character list at `/` separators (MQTT topic levels). -/
def splitSlash : List Char → List (List Char)
  | [] => [[]]
  | c :: rest =>
    let r := splitSlash rest
    if c = '/' then [] :: r
    else
      match r with
      | [] => [[c]]
      | t :: ts => (c :: t) :: ts

/-- Token-wise MQTT filter walk over topic levels. -/
def matchTokens : List (List Char) → List (List Char) → Bool
  | [], [] => true
  | ['#'] :: _, _ => true
  | f :: fs, t :: ts => (f = ['+'] || f = t) && matchTokens fs ts
  | _, _ => false

/-- Modelled from the spec: `protocol::matches(topic, filter)` is defined
outside the three router source files; §4.1 specifies it as the standard
MQTT token-wise walk — split both on `/`, `+` matches exactly one token,
`#` matches all remaining tokens and must be terminal. -/
def protocolMatches (topic : Topic) (filter : Filter) : Bool :=
  matchTokens (splitSlash filter.data) (splitSlash topic.data)

/-- Modelled from the spec: Rust's `str::starts_with`, used by the tenant
and filter checks (the helper itself is library code, not in src/). -/
def strStartsWith (s pre : String) : Bool :=
  pre.data.isPrefixOf s.data

/-- `ConnAck` payload (return code is always `Success` on this path). -/
structure ConnAck where
  session_present : Bool
deriving DecidableEq

/-- `SubscribeReasonCode` as enqueued in a `SubAck`. -/
inductive SubscribeReasonCode where
  | QoS0
  | QoS1
  | QoS2
deriving DecidableEq

/-- `SubAck` payload. -/
structure SubAck where
  pkid : Nat
  return_codes : List SubscribeReasonCode
deriving DecidableEq

/-- `PubAck` payload (reason is always `Success` on this path). -/
structure PubAck where
  pkid : Nat
deriving DecidableEq

/-- `PubRec` payload. -/
structure PubRec where
  pkid : Nat
deriving DecidableEq

/-- `PubRel` payload. -/
structure PubRel where
  pkid : Nat
deriving DecidableEq

/-- `PubComp` payload. -/
structure PubComp where
  pkid : Nat
deriving DecidableEq

/-- `UnsubAck` payload. -/
structure UnsubAck where
  pkid : Nat
deriving DecidableEq

/-- `router::Ack`: tagged union of outbound acknowledgements. -/
inductive Ack where
  | connack (id : ConnectionId) (a : ConnAck)
  | suback (a : SubAck)
  | puback (a : PubAck)
  | pubrec (a : PubRec)
  | pubrel (a : PubRel)
  | pubcomp (a : PubComp)
  | pingresp
  | unsuback (a : UnsubAck)
deriving DecidableEq

/-- `AckLog` (logs.rs): per-connection FIFO of committed acks plus FIFO of
recorded QoS 2 publishes. -/
structure AckLog where
  committed : List Ack
  recorded : List Publish
deriving DecidableEq

/-- `AckLog::new`. -/
def AckLog.new : AckLog :=
  { committed := [], recorded := [] }

/-- `AckLog::connack`. -/
def AckLog.connack (l : AckLog) (id : ConnectionId) (ack : ConnAck) : AckLog :=
  { l with committed := l.committed ++ [Ack.connack id ack] }

/-- `AckLog::suback`. -/
def AckLog.suback (l : AckLog) (ack : SubAck) : AckLog :=
  { l with committed := l.committed ++ [Ack.suback ack] }

/-- `AckLog::puback`. -/
def AckLog.puback (l : AckLog) (ack : PubAck) : AckLog :=
  { l with committed := l.committed ++ [Ack.puback ack] }

/-- `AckLog::pubrec`: record the publish, commit the `PubRec`. -/
def AckLog.pubrec (l : AckLog) (publish : Publish) (ack : PubRec) : AckLog :=
  { l with recorded := l.recorded ++ [publish],
           committed := l.committed ++ [Ack.pubrec ack] }

/-- `AckLog::pubrel`. -/
def AckLog.pubrel (l : AckLog) (ack : PubRel) : AckLog :=
  { l with committed := l.committed ++ [Ack.pubrel ack] }

/-- `AckLog::pubcomp`: commit the `PubComp`, then pop the front of the
recorded-publish queue (`VecDeque::pop_front`). -/
def AckLog.pubcomp (l : AckLog) (ack : PubComp) : AckLog × Option Publish :=
  let l := { l with committed := l.committed ++ [Ack.pubcomp ack] }
  match l.recorded with
  | [] => (l, none)
  | p :: rest => ({ l with recorded := rest }, some p)

/-- `AckLog::pingresp`. -/
def AckLog.pingresp (l : AckLog) : AckLog :=
  { l with committed := l.committed ++ [Ack.pingresp] }

/-- `AckLog::unsuback`. -/
def AckLog.unsuback (l : AckLog) (ack : UnsubAck) : AckLog :=
  { l with committed := l.committed ++ [Ack.unsuback ack] }

/-- `router::DataRequest`: one consumer's pending pull from one filter. -/
structure DataRequest where
  filter : Filter
  filter_idx : FilterIdx
  qos : Nat
  cursor : Offset
  read_count : Nat
  max_count : Nat
deriving DecidableEq

/-- `scheduler::PauseReason`. -/
inductive PauseReason where
  | Caughtup
  | InflightFull
  | Busy
deriving DecidableEq

/-- `scheduler::Status`. -/
inductive Status where
  | Ready
  | Paused (r : PauseReason)
deriving DecidableEq

/-- `scheduler::ScheduleReason`. -/
inductive ScheduleReason where
  | Init
  | NewFilter
  | FreshData
  | IncomingAck
  | Ready
deriving DecidableEq

/-- `scheduler::Tracker`. -/
structure Tracker where
  id : String
  data_requests : List DataRequest
  status : Status
deriving DecidableEq

/-- `Tracker::new`: fresh tracker, initially `Paused(Busy)`. -/
def Tracker.new (client_id : String) : Tracker :=
  { id := client_id, data_requests := [], status := Status.Paused PauseReason.Busy }

/-- `Tracker::try_ready`.  Outer `none` models a `debug_assert!` failure;
on `some (t, v)`, `t` is the updated tracker and `v` the Rust return value
(`Some(previous)` exactly when the status changed to `Ready`). -/
def Tracker.try_ready (t : Tracker) (reason : ScheduleReason) :
    Option (Tracker × Option PauseReason) :=
  match t.status with
  | Status.Ready => some (t, none)
  | Status.Paused previous =>
    match reason with
    | ScheduleReason.Init =>
      if previous = PauseReason.Busy then
        some ({ t with status := Status.Ready }, some previous)
      else none
    | ScheduleReason.NewFilter =>
      if previous = PauseReason.Caughtup then
        some ({ t with status := Status.Ready }, some previous)
      else some (t, none)
    | ScheduleReason.FreshData =>
      if previous = PauseReason.Caughtup then
        some ({ t with status := Status.Ready }, some previous)
      else some (t, none)
    | ScheduleReason.IncomingAck =>
      if previous = PauseReason.InflightFull then
        some ({ t with status := Status.Ready }, some previous)
      else some (t, none)
    | ScheduleReason.Ready =>
      if previous = PauseReason.Busy then
        some ({ t with status := Status.Ready }, some previous)
      else none

/-- `Tracker::pause`. -/
def Tracker.pause (t : Tracker) (reason : PauseReason) : Tracker :=
  { t with status := Status.Paused reason }

/-- `Tracker::register_data_request`. -/
def Tracker.register_data_request (t : Tracker) (request : DataRequest) : Tracker :=
  { t with data_requests := t.data_requests ++ [request] }

/-- `Tracker::unregister_data_request`: collect the positions of every
request on `filter`, then call `VecDeque::remove` on each collected
position in turn (`remove` on an out-of-range index is a no-op returning
`None`, which the source ignores). -/
def Tracker.unregister_data_request (t : Tracker) (filter : Filter) : Tracker :=
  let idxs := ((t.data_requests.enum.filter fun p => p.2.filter = filter).map fun p => p.1)
  { t with data_requests := idxs.foldl (fun l i => l.eraseIdx i) t.data_requests }

/-- The transition table of the claimed tracker state machine, written from
the specification's table (§4.3) for comparison with `Tracker.try_ready`:
`none` is an assert-fail cell, `some (st, v)` the resulting status and
returned previous pause reason. -/
def tryReadyTable (st : Status) (reason : ScheduleReason) :
    Option (Status × Option PauseReason) :=
  match st with
  | Status.Ready => some (Status.Ready, none)
  | Status.Paused p =>
    match reason with
    | ScheduleReason.Init =>
      if p = PauseReason.Busy then some (Status.Ready, some p) else none
    | ScheduleReason.Ready =>
      if p = PauseReason.Busy then some (Status.Ready, some p) else none
    | ScheduleReason.NewFilter =>
      if p = PauseReason.Caughtup then some (Status.Ready, some p) else some (st, none)
    | ScheduleReason.FreshData =>
      if p = PauseReason.Caughtup then some (Status.Ready, some p) else some (st, none)
    | ScheduleReason.IncomingAck =>
      if p = PauseReason.InflightFull then some (Status.Ready, some p) else some (st, none)

/-- C10: `AckLog::pubcomp` pushes the `PubComp` ack onto the committed
queue unconditionally — also when the recorded queue is empty and `None`
is returned (`pop_front` of an empty queue); the returned publish is
exactly the front of the recorded queue, so on the protocol-violation
path the ack log is still extended by the `PubComp`. -/
theorem acklog_pubcomp_always_commits (l : AckLog) (ack : PubComp) :
    (l.pubcomp ack).1.committed = l.committed ++ [Ack.pubcomp ack] ∧
    (l.pubcomp ack).2 = l.recorded.head? ∧
    (l.pubcomp ack).1.recorded = l.recorded.tail := by
  unfold AckLog.pubcomp
  cases l.recorded <;> simp

/-- C6: `Tracker::try_ready` implements exactly the specified transition
table: `Ready` returns `None` and changes nothing; `NewFilter`/`FreshData`
reach `Ready` only from `Paused(Caughtup)`; `IncomingAck` only from
`Paused(InflightFull)`; `Init` and the explicit `Ready` event only from
`Paused(Busy)` with any other paused state an assertion failure; every
other combination leaves the status unchanged and returns `None`.  The
data requests and client id are never touched. -/
theorem tracker_try_ready_matches_table (t : Tracker) (reason : ScheduleReason) :
    (t.try_ready reason).map (fun p => (p.1.status, p.2, p.1.data_requests, p.1.id)) =
      (tryReadyTable t.status reason).map (fun q => (q.1, q.2, t.data_requests, t.id)) := by
  cases h : t.status with
  | Ready => cases reason <;> simp [Tracker.try_ready, tryReadyTable, h]
  | Paused p =>
    cases reason <;> cases p <;>
      simp [Tracker.try_ready, tryReadyTable, h]

/-- The `slab` crate's key-value store (an external dependency), modelled
as an option array: `insert` fills the first vacant slot (the crate reuses
vacant slots; no claim depends on the particular reuse order). -/
def slabInsert {α : Type} : List (Option α) → α → Nat × List (Option α)
  | [], a => (0, [some a])
  | none :: rest, a => (0, some a :: rest)
  | some b :: rest, a =>
    let (i, rest') := slabInsert rest a
    (i + 1, some b :: rest')

/-- `Slab::get`. -/
def slabGet {α : Type} (s : List (Option α)) (i : Nat) : Option α :=
  match s.get? i with
  | some v => v
  | none => none

/-- In-place update of an occupied slot (`get_mut` followed by a write). -/
def slabSet {α : Type} (s : List (Option α)) (i : Nat) (a : α) : List (Option α) :=
  s.set i (some a)

/-- `Slab::remove` leaves the slot vacant. -/
def slabRemove {α : Type} (s : List (Option α)) (i : Nat) : List (Option α) :=
  s.set i none

/-- `scheduler::Scheduler`: per-connection trackers plus the FIFO ready
queue of connection ids. -/
structure Scheduler where
  trackers : List (Option Tracker)
  readyqueue : List ConnectionId
deriving DecidableEq

/-- `Scheduler::with_capacity` (capacity is irrelevant to behaviour). -/
def Scheduler.empty : Scheduler :=
  { trackers := [], readyqueue := [] }

/-- `Scheduler::add`. -/
def Scheduler.add (s : Scheduler) (tracker : Tracker) : ConnectionId × Scheduler :=
  let (id, trackers) := slabInsert s.trackers tracker
  (id, { s with trackers := trackers })

/-- `Scheduler::remove` (`Slab::remove` panics on a vacant slot: `none`). -/
def Scheduler.remove (s : Scheduler) (id : ConnectionId) : Option (Tracker × Scheduler) :=
  (slabGet s.trackers id).map fun t => (t, { s with trackers := slabRemove s.trackers id })

/-- `Scheduler::poll`: pop the front id; a vacant tracker ends the poll
with the id dropped (`?` on `get_mut`); otherwise move the tracker's
request queue out and re-enqueue the id at the back. -/
def Scheduler.poll (s : Scheduler) : Scheduler × Option (ConnectionId × List DataRequest) :=
  match s.readyqueue with
  | [] => (s, none)
  | id :: rest =>
    match slabGet s.trackers id with
    | none => ({ s with readyqueue := rest }, none)
    | some t =>
      ({ trackers := slabSet s.trackers id { t with data_requests := [] },
         readyqueue := rest ++ [id] },
       some (id, t.data_requests))

/-- `Scheduler::track` (`unwrap` on a vacant tracker: `none`). -/
def Scheduler.track (s : Scheduler) (id : ConnectionId) (request : DataRequest) :
    Option Scheduler :=
  (slabGet s.trackers id).map fun t =>
    { s with trackers := slabSet s.trackers id (t.register_data_request request) }

/-- `Scheduler::untrack` (`unwrap` on a vacant tracker: `none`). -/
def Scheduler.untrack (s : Scheduler) (id : ConnectionId) (filter : Filter) :
    Option Scheduler :=
  (slabGet s.trackers id).map fun t =>
    { s with trackers := slabSet s.trackers id (t.unregister_data_request filter) }

/-- `Scheduler::trackv`. -/
def Scheduler.trackv (s : Scheduler) (id : ConnectionId) (requests : List DataRequest) :
    Option Scheduler :=
  (slabGet s.trackers id).map fun t =>
    let t' := { t with data_requests := t.data_requests ++ requests }
    { s with trackers := slabSet s.trackers id t' }

/-- `Scheduler::reschedule`: apply `try_ready`; push the id onto the ready
queue exactly when the tracker reports a `Paused → Ready` transition. -/
def Scheduler.reschedule (s : Scheduler) (id : ConnectionId) (reason : ScheduleReason) :
    Option Scheduler :=
  (slabGet s.trackers id).bind fun t =>
    (t.try_ready reason).map fun p =>
      match p.2 with
      | some _ =>
        { trackers := slabSet s.trackers id p.1, readyqueue := s.readyqueue ++ [id] }
      | none => { s with trackers := slabSet s.trackers id p.1 }

/-- `Scheduler::pause`: `assert_eq!(readyqueue.pop_back(), Some(id))`
(modelled as `none` when it fails), then pause the tracker. -/
def Scheduler.pause (s : Scheduler) (id : ConnectionId) (reason : PauseReason) :
    Option Scheduler :=
  match s.readyqueue.getLast? with
  | none => none
  | some lastId =>
    if lastId = id then
      (slabGet s.trackers id).map fun t =>
        { trackers := slabSet s.trackers id (t.pause reason),
          readyqueue := s.readyqueue.dropLast }
    else none

/-- The scheduler operations named by the ready-queue claim. -/
inductive SchedOp where
  | add (tracker : Tracker)
  | remove (id : ConnectionId)
  | poll
  | track (id : ConnectionId) (request : DataRequest)
  | untrack (id : ConnectionId) (filter : Filter)
  | trackv (id : ConnectionId) (requests : List DataRequest)
  | reschedule (id : ConnectionId) (reason : ScheduleReason)
  | pause (id : ConnectionId) (reason : PauseReason)
deriving DecidableEq

/-- One scheduler operation; `none` models a panicking run (failed
`unwrap`, failed assertion). -/
def schedStep (s : Scheduler) : SchedOp → Option Scheduler
  | SchedOp.add t => some (s.add t).2
  | SchedOp.remove id => (s.remove id).map (·.2)
  | SchedOp.poll => some s.poll.1
  | SchedOp.track id r => s.track id r
  | SchedOp.untrack id f => s.untrack id f
  | SchedOp.trackv id rs => s.trackv id rs
  | SchedOp.reschedule id reason => s.reschedule id reason
  | SchedOp.pause id reason => s.pause id reason

/-- Run a list of scheduler operations from a state. -/
def schedRun (s : Scheduler) : List SchedOp → Option Scheduler
  | [] => some s
  | op :: ops => (schedStep s op).bind fun s' => schedRun s' ops

/-- A concrete data request on filter `f` (cursor 0). -/
def reqF1 : DataRequest :=
  { filter := "f", filter_idx := 0, qos := 1, cursor := (0, 0), read_count := 0, max_count := 100 }

/-- A second data request on filter `f` (cursor 5). -/
def reqF2 : DataRequest :=
  { filter := "f", filter_idx := 0, qos := 1, cursor := (0, 5), read_count := 0, max_count := 100 }

/-- A data request on filter `g`. -/
def reqG : DataRequest :=
  { filter := "g", filter_idx := 1, qos := 1, cursor := (0, 0), read_count := 0, max_count := 100 }

/-- A tracker holding two requests on `f` and one on `g`. -/
def c9tracker : Tracker :=
  { id := "c", data_requests := [reqF1, reqF2, reqG], status := Status.Paused PauseReason.Busy }

/-- C9: evaluating `Tracker::unregister_data_request` on a queue holding
two requests for filter `f` followed by one for `g`: the collected
removal positions `[0, 1]` go stale after the first removal, so the
second `VecDeque::remove(1)` deletes the `g` request instead of the
second `f` request — a request on `f` survives the untrack. -/
theorem unregister_data_request_misses_duplicate :
    (c9tracker.unregister_data_request "f").data_requests = [reqF2] ∧
    ((c9tracker.unregister_data_request "f").data_requests.any
      fun r => r.filter == "f") = true := by
  decide

/-- Operation list reaching a duplicated ready-queue entry: connection 0
becomes ready, disconnects (its tracker is removed, its id stays queued),
the freed slab slot is reused by a new connection, and that connection's
`Init` reschedule enqueues id 0 a second time. -/
def c5ops : List SchedOp :=
  [SchedOp.add (Tracker.new "a"),
   SchedOp.reschedule 0 ScheduleReason.Init,
   SchedOp.remove 0,
   SchedOp.add (Tracker.new "b"),
   SchedOp.reschedule 0 ScheduleReason.Init]

/-- C5: the ready-queue uniqueness claim fails as stated: the scheduler
operation sequence `c5ops` (all asserts passing) reaches a state whose
ready queue is `[0, 0]`, with `ConnectionId` 0 occurring twice. -/
theorem scheduler_readyqueue_duplicate_reachable :
    (schedRun Scheduler.empty c5ops).map
      (fun s => (s.readyqueue, decide s.readyqueue.Nodup)) = some ([0, 0], false) := by
  decide

/-- The ready-queue invariant: no duplicate ids, and every queued id has a
live tracker in `Ready` status. -/
def SchedInv (s : Scheduler) : Prop :=
  s.readyqueue.Nodup ∧
  ∀ id ∈ s.readyqueue, ∃ t, slabGet s.trackers id = some t ∧ t.status = Status.Ready

/-- Scheduler states reachable from the empty scheduler by non-panicking
operations in which `remove` is only applied to an id that is not in the
ready queue at that moment. -/
inductive SchedReachSafe : Scheduler → Prop
  | init : SchedReachSafe Scheduler.empty
  | step {s s' : Scheduler} {op : SchedOp} : SchedReachSafe s →
      schedStep s op = some s' →
      (∀ id, op = SchedOp.remove id → id ∉ s.readyqueue) →
      SchedReachSafe s'

theorem slabGet_nil {α : Type} (i : Nat) : slabGet ([] : List (Option α)) i = none := by
  simp [slabGet]

theorem slabGet_some_lt {α : Type} {s : List (Option α)} {i : Nat} {a : α}
    (h : slabGet s i = some a) : i < s.length := by
  by_contra hlt
  rw [slabGet, List.get?_eq_none.2 (Nat.le_of_not_lt hlt)] at h
  exact Option.noConfusion h

theorem slabGet_slabSet_self {α : Type} {s : List (Option α)} {i : Nat} {b : α} (a : α)
    (h : slabGet s i = some b) : slabGet (slabSet s i a) i = some a := by
  have hlt := slabGet_some_lt h
  rw [slabGet, slabSet, List.get?_set_eq]
  rw [List.get?_eq_get hlt]
  rfl

theorem slabGet_slabSet_ne {α : Type} (s : List (Option α)) (i j : Nat) (a : α)
    (h : j ≠ i) : slabGet (slabSet s i a) j = slabGet s j := by
  rw [slabGet, slabSet, List.get?_set_ne _ _ (fun hh => h hh.symm), slabGet]

theorem slabGet_slabRemove_ne {α : Type} (s : List (Option α)) (i j : Nat)
    (h : j ≠ i) : slabGet (slabRemove s i) j = slabGet s j := by
  rw [slabGet, slabRemove, List.get?_set_ne _ _ (fun hh => h hh.symm), slabGet]

theorem slabInsert_vacant {α : Type} (s : List (Option α)) (a : α) :
    slabGet s (slabInsert s a).1 = none := by
  induction s with
  | nil => simp [slabGet]
  | cons hd tl ih =>
    cases hd with
    | none => simp [slabInsert, slabGet]
    | some b => simpa [slabInsert, slabGet] using ih

theorem slabInsert_get_ne {α : Type} (s : List (Option α)) (a : α) (j : Nat)
    (h : j ≠ (slabInsert s a).1) : slabGet (slabInsert s a).2 j = slabGet s j := by
  induction s generalizing j with
  | nil =>
    cases j with
    | zero => exact absurd rfl h
    | succ n => simp [slabInsert, slabGet]
  | cons hd tl ih =>
    cases hd with
    | none =>
      cases j with
      | zero => exact absurd rfl h
      | succ n => simp [slabInsert, slabGet]
    | some b =>
      cases j with
      | zero => simp [slabInsert, slabGet]
      | succ n =>
        have h' : n ≠ (slabInsert tl a).1 := by
          intro hh
          exact h (by simp [slabInsert, hh])
        simpa [slabInsert, slabGet] using ih n h'

theorem try_ready_none_eq {t : Tracker} {reason : ScheduleReason} {t' : Tracker}
    (h : t.try_ready reason = some (t', none)) : t' = t := by
  unfold Tracker.try_ready at h
  cases hs : t.status with
  | Ready =>
    rw [hs] at h
    exact (Prod.mk.injEq .. ▸ (Option.some.injEq .. ▸ h)).1.symm ▸ rfl
  | Paused p =>
    rw [hs] at h
    cases reason <;> cases p <;> simp_all

theorem try_ready_some_status {t : Tracker} {reason : ScheduleReason} {t' : Tracker}
    {prev : PauseReason} (h : t.try_ready reason = some (t', some prev)) :
    t.status = Status.Paused prev ∧ t' = { t with status := Status.Ready } := by
  unfold Tracker.try_ready at h
  cases hs : t.status with
  | Ready => rw [hs] at h; simp_all
  | Paused p =>
    rw [hs] at h
    cases reason <;> cases p <;> simp_all

theorem getLast?_eq_dropLast_append {l : List ConnectionId} {a : ConnectionId}
    (h : l.getLast? = some a) : l = l.dropLast ++ [a] := by
  induction l with
  | nil => exact Option.noConfusion h
  | cons hd tl ih =>
    cases htl : tl with
    | nil => simp [htl] at h ⊢; simpa [List.getLast?] using h
    | cons x xs =>
      rw [htl] at ih h
      rw [List.getLast?_cons_cons] at h
      have := ih h
      calc hd :: x :: xs = hd :: (x :: xs) := rfl
        _ = hd :: ((x :: xs).dropLast ++ [a]) := by rw [← this]
        _ = (hd :: x :: xs).dropLast ++ [a] := by simp [List.dropLast]

theorem schedStep_preserves_inv {s s' : Scheduler} {op : SchedOp}
    (hinv : SchedInv s) (hstep : schedStep s op = some s')
    (hrem : ∀ id, op = SchedOp.remove id → id ∉ s.readyqueue) : SchedInv s' := by
  obtain ⟨hnd, hok⟩ := hinv
  cases op with
  | add t =>
    simp only [schedStep, Scheduler.add, Option.some.injEq] at hstep
    subst hstep
    refine ⟨hnd, ?_⟩
    intro j hj
    obtain ⟨tr, h1, h2⟩ := hok j hj
    have hne : j ≠ (slabInsert s.trackers t).1 := by
      intro hh
      rw [hh, slabInsert_vacant] at h1
      exact Option.noConfusion h1
    exact ⟨tr, by rw [slabInsert_get_ne _ _ _ hne]; exact h1, h2⟩
  | remove rid =>
    rcases hg : slabGet s.trackers rid with _ | t
    · simp [schedStep, Scheduler.remove, hg] at hstep
    · simp only [schedStep, Scheduler.remove, hg, Option.map_some', Option.some.injEq] at hstep
      subst hstep
      refine ⟨hnd, ?_⟩
      intro j hj
      obtain ⟨tr, h1, h2⟩ := hok j hj
      have hne : j ≠ rid := fun hh => hrem rid rfl (hh ▸ hj)
      exact ⟨tr, by rw [slabGet_slabRemove_ne _ _ _ hne]; exact h1, h2⟩
  | poll =>
    rcases hq : s.readyqueue with _ | ⟨id, rest⟩
    · simp only [schedStep, Scheduler.poll, hq, Option.some.injEq] at hstep
      subst hstep
      exact ⟨hnd, hok⟩
    · have hnd' : (id :: rest).Nodup := hq ▸ hnd
      rcases hg : slabGet s.trackers id with _ | t
      · simp only [schedStep, Scheduler.poll, hq, hg, Option.some.injEq] at hstep
        subst hstep
        refine ⟨(List.nodup_cons.1 hnd').2, ?_⟩
        intro j hj
        exact hok j (by rw [hq]; exact List.mem_cons_of_mem _ hj)
      · simp only [schedStep, Scheduler.poll, hq, hg, Option.some.injEq] at hstep
        subst hstep
        constructor
        · exact ((List.perm_append_singleton id rest).nodup_iff).2 hnd'
        · intro j hj
          rcases List.mem_append.1 hj with hj | hj
          · have hjq : j ∈ s.readyqueue := by rw [hq]; exact List.mem_cons_of_mem _ hj
            obtain ⟨tr, h1, h2⟩ := hok j hjq
            have hne : j ≠ id := fun hh => (List.nodup_cons.1 hnd').1 (hh ▸ hj)
            exact ⟨tr, by rw [slabGet_slabSet_ne _ _ _ _ hne]; exact h1, h2⟩
          · have hj := List.mem_singleton.1 hj
            subst hj
            obtain ⟨tr, h1, h2⟩ := hok j (by rw [hq]; exact List.mem_cons_self _ _)
            rw [hg] at h1
            injection h1 with h1
            subst h1
            exact ⟨_, slabGet_slabSet_self _ hg, h2⟩
  | track tid r =>
    rcases hg : slabGet s.trackers tid with _ | t
    · simp [schedStep, Scheduler.track, hg] at hstep
    · simp only [schedStep, Scheduler.track, hg, Option.map_some', Option.some.injEq] at hstep
      subst hstep
      refine ⟨hnd, ?_⟩
      intro j hj
      obtain ⟨tr, h1, h2⟩ := hok j hj
      by_cases hje : j = tid
      · subst hje
        rw [hg] at h1
        injection h1 with h1
        subst h1
        exact ⟨_, slabGet_slabSet_self _ hg, h2⟩
      · exact ⟨tr, by rw [slabGet_slabSet_ne _ _ _ _ hje]; exact h1, h2⟩
  | untrack uid f =>
    rcases hg : slabGet s.trackers uid with _ | t
    · simp [schedStep, Scheduler.untrack, hg] at hstep
    · simp only [schedStep, Scheduler.untrack, hg, Option.map_some', Option.some.injEq] at hstep
      subst hstep
      refine ⟨hnd, ?_⟩
      intro j hj
      obtain ⟨tr, h1, h2⟩ := hok j hj
      by_cases hje : j = uid
      · subst hje
        rw [hg] at h1
        injection h1 with h1
        subst h1
        exact ⟨_, slabGet_slabSet_self _ hg, h2⟩
      · exact ⟨tr, by rw [slabGet_slabSet_ne _ _ _ _ hje]; exact h1, h2⟩
  | trackv vid rs =>
    rcases hg : slabGet s.trackers vid with _ | t
    · simp [schedStep, Scheduler.trackv, hg] at hstep
    · simp only [schedStep, Scheduler.trackv, hg, Option.map_some', Option.some.injEq] at hstep
      subst hstep
      refine ⟨hnd, ?_⟩
      intro j hj
      obtain ⟨tr, h1, h2⟩ := hok j hj
      by_cases hje : j = vid
      · subst hje
        rw [hg] at h1
        injection h1 with h1
        subst h1
        exact ⟨_, slabGet_slabSet_self _ hg, h2⟩
      · exact ⟨tr, by rw [slabGet_slabSet_ne _ _ _ _ hje]; exact h1, h2⟩
  | reschedule rid reason =>
    rcases hg : slabGet s.trackers rid with _ | t
    · simp [schedStep, Scheduler.reschedule, hg] at hstep
    · rcases htr : t.try_ready reason with _ | ⟨t', v⟩
      · simp [schedStep, Scheduler.reschedule, hg, htr] at hstep
      · cases v with
        | none =>
          have ht' := try_ready_none_eq htr
          subst ht'
          simp [schedStep, Scheduler.reschedule, hg, htr] at hstep
          subst hstep
          refine ⟨hnd, ?_⟩
          intro j hj
          obtain ⟨tr, h1, h2⟩ := hok j hj
          by_cases hje : j = rid
          · subst hje
            rw [hg] at h1
            injection h1 with h1
            subst h1
            exact ⟨_, slabGet_slabSet_self _ hg, h2⟩
          · exact ⟨tr, by rw [slabGet_slabSet_ne _ _ _ _ hje]; exact h1, h2⟩
        | some prev =>
          obtain ⟨hp, ht'⟩ := try_ready_some_status htr
          subst ht'
          simp [schedStep, Scheduler.reschedule, hg, htr] at hstep
          subst hstep
          have hnotin : rid ∉ s.readyqueue := by
            intro hin
            obtain ⟨tr, h1, h2⟩ := hok rid hin
            rw [hg] at h1
            injection h1 with h1
            subst h1
            rw [hp] at h2
            exact Status.noConfusion h2
          constructor
          · exact ((List.perm_append_singleton rid s.readyqueue).nodup_iff).2
              (List.nodup_cons.2 ⟨hnotin, hnd⟩)
          · intro j hj
            rcases List.mem_append.1 hj with hj | hj
            · obtain ⟨tr, h1, h2⟩ := hok j hj
              have hje : j ≠ rid := fun hh => hnotin (hh ▸ hj)
              exact ⟨tr, by rw [slabGet_slabSet_ne _ _ _ _ hje]; exact h1, h2⟩
            · have hj := List.mem_singleton.1 hj
              subst hj
              exact ⟨_, slabGet_slabSet_self _ hg, rfl⟩
  | pause pid reason =>
    rcases hl : s.readyqueue.getLast? with _ | lastId
    · simp [schedStep, Scheduler.pause, hl] at hstep
    · by_cases hle : lastId = pid
      · subst hle
        rcases hg : slabGet s.trackers lastId with _ | t
        · simp [schedStep, Scheduler.pause, hl, hg] at hstep
        · simp [schedStep, Scheduler.pause, hl, hg] at hstep
          subst hstep
          have hdecomp := getLast?_eq_dropLast_append hl
          have hndq : (s.readyqueue.dropLast ++ [lastId]).Nodup := hdecomp ▸ hnd
          have hnotin : lastId ∉ s.readyqueue.dropLast := by
            intro hin
            exact (List.nodup_append.1 hndq).2.2 hin (List.mem_singleton.2 rfl)
          constructor
          · exact (List.nodup_append.1 hndq).1
          · intro j hj
            have hjq : j ∈ s.readyqueue := by
              rw [hdecomp]
              exact List.mem_append_left _ hj
            obtain ⟨tr, h1, h2⟩ := hok j hjq
            have hje : j ≠ lastId := fun hh => hnotin (hh ▸ hj)
            exact ⟨tr, by rw [slabGet_slabSet_ne _ _ _ _ hje]; exact h1, h2⟩
      · simp [schedStep, Scheduler.pause, hl, hle] at hstep

/-- C5 (amended): in every state of the scheduler reachable by
non-panicking operations (`reschedule`, `poll`, `pause`, `add`, `remove`,
`track`, `untrack`, `trackv`) from the initial empty state, no
`ConnectionId` occurs more than once in the ready queue — provided every
`remove` is applied while its id is not in the ready queue.  Without that
proviso the claim is false (`scheduler_readyqueue_duplicate_reachable`):
removing a connection leaves its id queued, the slab reuses the freed
slot, and the successor's `Init` reschedule enqueues the id a second
time.  Within the proviso, `reschedule` pushes an id only on an actual
`Paused → Ready` transition and `poll` re-enqueues the popped front
exactly once at the back, preserving uniqueness. -/
theorem scheduler_readyqueue_nodup_of_safe {s : Scheduler} (h : SchedReachSafe s) :
    s.readyqueue.Nodup := by
  suffices hinv : SchedInv s from hinv.1
  induction h with
  | init => exact ⟨List.nodup_nil, by intro id hid; cases hid⟩
  | step h1 hstep hrem ih => exact schedStep_preserves_inv ih hstep hrem

/-- Witness for the amended ready-queue claim: the state reached by
adding a tracker and rescheduling it with `Init` satisfies the theorem's
reachability hypothesis, and its ready queue `[0]` has no duplicates. -/
theorem scheduler_readyqueue_nodup_of_safe_witness :
    ({ trackers := [some { id := "a", data_requests := [], status := Status.Ready }],
       readyqueue := [0] } : Scheduler).readyqueue.Nodup :=
  scheduler_readyqueue_nodup_of_safe
    (@SchedReachSafe.step
      { trackers := [some (Tracker.new "a")], readyqueue := [] }
      { trackers := [some { id := "a", data_requests := [], status := Status.Ready }],
        readyqueue := [0] }
      (SchedOp.reschedule 0 ScheduleReason.Init)
      (@SchedReachSafe.step Scheduler.empty
        { trackers := [some (Tracker.new "a")], readyqueue := [] }
        (SchedOp.add (Tracker.new "a"))
        SchedReachSafe.init (by decide) (fun id h => by cases h))
      (by decide) (fun id h => by cases h))

/-- The two incoming-packet kinds that drive the QoS 2 bookkeeping of
`Router::handle_device_payload`: a QoS 2 `Publish` and a `PubRel`. -/
inductive Qos2Event where
  | pub2 (p : Publish)
  | rel (pkid : Nat)
deriving DecidableEq

/-- Per-connection state of the QoS 2 path: the ack log, the sequence of
publishes handed to `append_to_commitlog` (each such call appends one copy
to every matching filter log), and the disconnect flag. -/
structure Qos2State where
  acklog : AckLog
  appends : List Publish
  disconnect : Bool
deriving DecidableEq

/-- Initial QoS 2 state: fresh ack log, nothing appended. -/
def qos2Init : Qos2State :=
  { acklog := AckLog.new, appends := [], disconnect := false }

/-- One packet of the QoS 2 path, translated from the `Publish`
(QoS `ExactlyOnce` arm: `pubrec` then `continue`, skipping the append) and
`PubRel` (`pubcomp`; `None` disconnects, `Some` is appended) arms of
`Router::handle_device_payload`.  After a disconnect the loop has been
broken, so later events leave the state unchanged. -/
def qos2Step (s : Qos2State) : Qos2Event → Qos2State
  | Qos2Event.pub2 p =>
    if s.disconnect then s
    else { s with acklog := s.acklog.pubrec p { pkid := p.pkid } }
  | Qos2Event.rel pkid =>
    if s.disconnect then s
    else
      match s.acklog.pubcomp { pkid := pkid } with
      | (acklog, none) => { s with acklog := acklog, disconnect := true }
      | (acklog, some publish) =>
        { s with acklog := acklog, appends := s.appends ++ [publish] }

/-- Run the QoS 2 path over a packet trace. -/
def qos2Run (events : List Qos2Event) : Qos2State :=
  events.foldl qos2Step qos2Init

/-- The QoS 2 publishes received in a trace, in order. -/
def qos2Pubs (events : List Qos2Event) : List Publish :=
  events.filterMap fun e =>
    match e with
    | Qos2Event.pub2 p => some p
    | Qos2Event.rel _ => none

/-- A concrete QoS 2 publish with pkid 3. -/
def pub3 : Publish :=
  { dup := false, qos := QoS.ExactlyOnce, retain := false, topic := "t",
    pkid := 3, payload := [120] }

/-- C2: the exactly-once property fails when a duplicate QoS 2 `Publish`
with the same pkid arrives before the `PubRel`: the duplicate is recorded
a second time in the ack log's FIFO, and the next `PubRel` pops and
appends it again — after the trace
`[Publish(pkid 3), Publish(pkid 3), PubRel, PubRel]` the publish with
pkid 3 has been handed to `append_to_commitlog` twice. -/
theorem qos2_duplicate_publish_appends_twice :
    ((qos2Run [Qos2Event.pub2 pub3, Qos2Event.pub2 pub3, Qos2Event.rel 3,
        Qos2Event.rel 3]).appends.countP fun p => p.pkid == 3) = 2 := by
  decide

theorem qos2Step_frozen {s : Qos2State} (h : s.disconnect = true) (e : Qos2Event) :
    qos2Step s e = s := by
  cases e <;> simp [qos2Step, h]

theorem qos2_foldl_frozen {s : Qos2State} (h : s.disconnect = true)
    (t : List Qos2Event) : t.foldl qos2Step s = s := by
  induction t with
  | nil => rfl
  | cons e t ih => rw [List.foldl_cons, qos2Step_frozen h]; exact ih

/-- The recording measure: publishes already appended followed by the
still-recorded queue.  Every processed trace extends it by a prefix of the
publishes of that trace. -/
theorem qos2_measure_prefix (t : List Qos2Event) (s : Qos2State) :
    ∃ u, (t.foldl qos2Step s).appends ++ (t.foldl qos2Step s).acklog.recorded =
        (s.appends ++ s.acklog.recorded) ++ u ∧ u <+: qos2Pubs t := by
  induction t generalizing s with
  | nil => exact ⟨[], by simp, List.nil_prefix⟩
  | cons e t ih =>
    rw [List.foldl_cons]
    cases hd : s.disconnect with
    | true =>
      rw [qos2Step_frozen hd, qos2_foldl_frozen hd]
      exact ⟨[], by simp, List.nil_prefix⟩
    | false =>
      cases e with
      | pub2 p =>
        obtain ⟨u, hu, hpre⟩ := ih (qos2Step s (Qos2Event.pub2 p))
        refine ⟨p :: u, ?_, ?_⟩
        · rw [hu]
          simp [qos2Step, hd, AckLog.pubrec]
        · show p :: u <+: qos2Pubs (Qos2Event.pub2 p :: t)
          simpa [qos2Pubs] using (List.prefix_cons_inj p).2 hpre
      | rel pkid =>
        obtain ⟨u, hu, hpre⟩ := ih (qos2Step s (Qos2Event.rel pkid))
        refine ⟨u, ?_, ?_⟩
        · rw [hu]
          rcases hr : s.acklog.recorded with _ | ⟨q, rest⟩ <;>
            simp [qos2Step, hd, AckLog.pubcomp, hr]
        · simpa [qos2Pubs] using hpre

/-- C2 (amended): the initial receipt of a QoS 2 `Publish` enqueues
`PubRec`, records the publish and performs no append, and the appends of
a trace are always a prefix (in order) of its received QoS 2 publishes —
so when no duplicate pkid is received, every `(client, pkid)` pair is
appended at most once, and only by a `PubRel`.  The unqualified claim —
exactly-once even when a duplicate `Publish` with the same pkid arrives
before the `PubRel` — is refuted by
`qos2_duplicate_publish_appends_twice`. -/
theorem qos2_exactly_once_of_nodup_pkids (t : List Qos2Event)
    (h : ((qos2Pubs t).map Publish.pkid).Nodup) :
    (∀ p : Publish, (qos2Run (t ++ [Qos2Event.pub2 p])).appends = (qos2Run t).appends) ∧
    ∀ k : Nat, ((qos2Run t).appends.countP fun p => p.pkid == k) ≤ 1 := by
  constructor
  · intro p
    rw [qos2Run, List.foldl_append, List.foldl_cons, List.foldl_nil]
    show (qos2Step (qos2Run t) (Qos2Event.pub2 p)).appends = (qos2Run t).appends
    cases hd : (qos2Run t).disconnect with
    | true => rw [qos2Step_frozen hd]
    | false => simp [qos2Step, hd, AckLog.pubrec]
  · intro k
    obtain ⟨u, hu, hpre⟩ := qos2_measure_prefix t qos2Init
    have happ : (qos2Run t).appends <+: qos2Pubs t := by
      refine List.IsPrefix.trans ⟨(qos2Run t).acklog.recorded, rfl⟩ ?_
      rw [qos2Run, hu]
      simpa [qos2Init, AckLog.new] using hpre
    calc ((qos2Run t).appends.countP fun p => p.pkid == k)
        ≤ ((qos2Pubs t).countP fun p => p.pkid == k) :=
          happ.sublist.countP_le _
      _ = (((qos2Pubs t).map Publish.pkid).countP fun x => x == k) := by
          rw [List.countP_map]; rfl
      _ = ((qos2Pubs t).map Publish.pkid).count k := by
          rw [List.count]
      _ ≤ 1 := List.nodup_iff_count_le_one.1 h k

/-- Witness for the amended QoS 2 claim: the single-publish trace
`[Publish(pkid 3), PubRel]` has distinct pkids; a further publish does not
change the appends, and pkid 3 is appended exactly once (count ≤ 1). -/
theorem qos2_exactly_once_of_nodup_pkids_witness :
    (∀ p : Publish,
      (qos2Run ([Qos2Event.pub2 pub3, Qos2Event.rel 3] ++ [Qos2Event.pub2 p])).appends =
        (qos2Run [Qos2Event.pub2 pub3, Qos2Event.rel 3]).appends) ∧
    ∀ k : Nat,
      ((qos2Run [Qos2Event.pub2 pub3, Qos2Event.rel 3]).appends.countP
        fun p => p.pkid == k) ≤ 1 :=
  qos2_exactly_once_of_nodup_pkids [Qos2Event.pub2 pub3, Qos2Event.rel 3] (by decide)

/-- Association-list model of `HashMap`: lookup by key. -/
def alistLookup {V : Type} : List (String × V) → String → Option V
  | [], _ => none
  | (k', v) :: rest, k => if k' = k then some v else alistLookup rest k

/-- Association-list model of `HashMap::insert` (replace or append). -/
def alistInsert {V : Type} : List (String × V) → String → V → List (String × V)
  | [], k, v => [(k, v)]
  | (k', v') :: rest, k, v =>
    if k' = k then (k, v) :: rest else (k', v') :: alistInsert rest k v

/-- Association-list model of `HashMap::remove`. -/
def alistRemove {V : Type} : List (String × V) → String → List (String × V)
  | [], _ => []
  | (k', v') :: rest, k =>
    if k' = k then rest else (k', v') :: alistRemove rest k

/-- `router::SubscriptionMeter` (the fields `append` updates). -/
structure SubscriptionMeter where
  count : Nat
  append_offset : Offset
  total_size : Nat
deriving DecidableEq

/-- Fresh meter (`SubscriptionMeter::default`). -/
def SubscriptionMeter.default : SubscriptionMeter :=
  { count := 0, append_offset := (0, 0), total_size := 0 }

/-- Modelled from the spec (§6.3): the segmented commit log is an external
primitive; it is modelled as a plain append-only list with cursors
`(0, position)`.  `append` returns the offset at which the item landed and
`readv` serves `max_len` items from a cursor, reporting `Done` when the
reader reaches the tail. -/
structure CommitLog where
  items : List Publish
deriving DecidableEq

/-- `CommitLog::new`. -/
def CommitLog.new : CommitLog :=
  { items := [] }

/-- `CommitLog::next_offset`: the tail cursor. -/
def CommitLog.next_offset (l : CommitLog) : Offset :=
  (0, l.items.length)

/-- `CommitLog::append`. -/
def CommitLog.append (l : CommitLog) (item : Publish) : Offset × CommitLog :=
  ((0, l.items.length), { items := l.items ++ [item] })

/-- `CommitLog::last`. -/
def CommitLog.last (l : CommitLog) : Option Publish :=
  l.items.getLast?

/-- `segments::Position`: `Next (start, stop)` when more data follows the
read, `Done (start, stop)` when the reader has caught up. -/
inductive Position where
  | Next (start : Offset) (stop : Offset)
  | Done (start : Offset) (stop : Offset)
deriving DecidableEq

/-- `CommitLog::readv`: serve up to `maxlen` items from `offset`. -/
def CommitLog.readv (l : CommitLog) (offset : Offset) (maxlen : Nat) :
    Position × List Publish :=
  let pos := offset.2
  let out := (l.items.drop pos).take maxlen
  let stop : Offset := (0, pos + out.length)
  if pos + out.length < l.items.length then (Position.Next offset stop, out)
  else (Position.Done offset stop, out)

/-- `logs::Data`: one filter's commit log, waiters and meter. -/
structure Data where
  filter : Filter
  log : CommitLog
  waiters : List (ConnectionId × DataRequest)
  meter : SubscriptionMeter
deriving DecidableEq

/-- `Data::new`. -/
def Data.new (filter : Filter) : Data :=
  { filter := filter, log := CommitLog.new, waiters := [],
    meter := SubscriptionMeter.default }

/-- `Data::append`: append to the log, drain the waiters into the
caller-provided notification list, update the meter. -/
def Data.append (d : Data) (item : Publish)
    (notifications : List (ConnectionId × DataRequest)) :
    (Offset × Filter) × Data × List (ConnectionId × DataRequest) :=
  let size := item.size
  let r := d.log.append item
  let offset := r.1
  let log := r.2
  let notifications := notifications ++ d.waiters
  let d' : Data :=
    { filter := d.filter, log := log, waiters := [],
      meter := { count := d.meter.count + 1, append_offset := offset,
                 total_size := d.meter.total_size + size } }
  ((offset, d.filter), d', notifications)

/-- `logs::DataLog`: per-filter commit logs (dense slab with no removals,
modelled as a list), the filter-name index, the retained publishes and the
topic → matched-filter-indices cache. -/
structure DataLog where
  native : List Data
  filter_indexes : List (Filter × FilterIdx)
  retained_publishes : List (Topic × Publish)
  publish_filters : List (Topic × List FilterIdx)
deriving DecidableEq

/-- `DataLog::new` with the configured `initialized_filters` (the warmup
loop inserts each filter's fresh log and index). -/
def DataLog.new (initialized_filters : List Filter) : DataLog :=
  initialized_filters.foldl
    (fun dl filter =>
      { dl with native := dl.native ++ [Data.new filter],
                filter_indexes := alistInsert dl.filter_indexes filter dl.native.length })
    { native := [], filter_indexes := [], retained_publishes := [], publish_filters := [] }

/-- `DataLog::matches`: serve the cached entry, or compute the matching
filter indices and cache the list when it is non-empty.  The source
always returns `Some` (the `Option` never carries `None`). -/
def DataLog.matches (dl : DataLog) (topic : Topic) :
    Option (List FilterIdx) × DataLog :=
  match alistLookup dl.publish_filters topic with
  | some v => (some v, dl)
  | none =>
    let v := (dl.filter_indexes.filter fun fi => protocolMatches topic fi.1).map fun fi => fi.2
    if v.isEmpty then (some v, dl)
    else (some v, { dl with publish_filters := alistInsert dl.publish_filters topic v })

/-- `DataLog::next_native_offset`: idempotent lookup-or-create.  On create
the new index is appended in place to every cached `publish_filters` entry
whose topic matches the new filter.  The slab never has vacant slots
(filters are never removed), so `Slab::insert` is an append at
`native.length`. -/
def DataLog.next_native_offset (dl : DataLog) (filter : Filter) :
    (FilterIdx × Offset) × DataLog :=
  match alistLookup dl.filter_indexes filter with
  | some idx =>
    ((idx, (match dl.native.get? idx with
            | some d => d.log.next_offset
            | none => (0, 0))), dl)
  | none =>
    let data := Data.new filter
    let idx := dl.native.length
    let native := dl.native ++ [data]
    let filter_indexes := alistInsert dl.filter_indexes filter idx
    let publish_filters := dl.publish_filters.map fun tl =>
      if protocolMatches tl.1 filter then (tl.1, tl.2 ++ [idx]) else tl
    ((idx, data.log.next_offset),
     { native := native, filter_indexes := filter_indexes,
       retained_publishes := dl.retained_publishes, publish_filters := publish_filters })

/-- `DataLog::native_readv` (`none` models the `unwrap` panic on an
unknown filter index; the modelled log read itself cannot fail). -/
def DataLog.native_readv (dl : DataLog) (filter_idx : FilterIdx) (offset : Offset)
    (len : Nat) : Option (Position × List Publish) :=
  (dl.native.get? filter_idx).map fun d => d.log.readv offset len

/-- Append a publish into `native[idx]` (`native.get_mut(idx).unwrap()`
followed by `Data::append`; for an index outside the slab the source
panics, modelled as a no-op that no verified path reaches). -/
def DataLog.append_at (dl : DataLog) (idx : FilterIdx) (item : Publish)
    (notifications : List (ConnectionId × DataRequest)) :
    Offset × DataLog × List (ConnectionId × DataRequest) :=
  match dl.native.get? idx with
  | none => ((0, 0), dl, notifications)
  | some d =>
    let r := d.append item notifications
    (r.1.1, { dl with native := dl.native.set idx r.2.1 }, r.2.2)

/-- `DataLog::insert_to_retained_publishes`. -/
def DataLog.insert_to_retained_publishes (dl : DataLog) (publish : Publish)
    (topic : Topic) : DataLog :=
  { dl with retained_publishes := alistInsert dl.retained_publishes topic publish }

/-- `DataLog::remove_from_retained_publishes`. -/
def DataLog.remove_from_retained_publishes (dl : DataLog) (topic : Topic) : DataLog :=
  { dl with retained_publishes := alistRemove dl.retained_publishes topic }

/-- `DataLog::handle_retained_messages`: append every retained publish
whose topic matches the filter into the filter's log (the filter's index
exists: the caller has just run `next_native_offset`). -/
def DataLog.handle_retained_messages (dl : DataLog) (filter : Filter)
    (notifications : List (ConnectionId × DataRequest)) :
    Option (DataLog × List (ConnectionId × DataRequest)) :=
  (alistLookup dl.filter_indexes filter).map fun idx =>
    dl.retained_publishes.foldl
      (fun acc tp =>
        if protocolMatches tp.1 filter then
          let r := acc.1.append_at idx tp.2 acc.2
          (r.2.1, r.2.2)
        else acc)
      (dl, notifications)

/-- `router::Connection` (the fields read on the verified paths). -/
structure Connection where
  client_id : String
  clean : Bool
  subscriptions : List Filter
  tenantPrefix : Option String
  dynamic_filters : Bool
deriving DecidableEq

/-- `routing::RouterError` (the variants of the verified paths). -/
inductive RouterError where
  | BadTenant (tenant : String) (topic : String)
  | NoMatchingFilters (topic : String)
  | UnsupportedQoS (qos : QoS)
  | InvalidFilterPrefix (filter : String)
deriving DecidableEq

/-- Body of `append_to_commitlog` after the tenant check: retained-store
maintenance, `retain` cleared on the appended copy, `matches`, the dead
`None` arms (dynamic-filter creation and `NoMatchingFilters`), and the
broadcast append over the matched indices with `o` starting at `(0, 0)`. -/
def append_to_commitlog_rest (conn : Connection) (publish : Publish) (dl : DataLog)
    (notifications : List (ConnectionId × DataRequest)) :
    Except RouterError (Offset × DataLog × List (ConnectionId × DataRequest)) :=
  let topic := publish.topic
  let dl :=
    if publish.payload.isEmpty then dl.remove_from_retained_publishes topic
    else if publish.retain then dl.insert_to_retained_publishes publish topic
    else dl
  let publish := { publish with retain := false }
  let (filter_idxs, dl) := dl.matches topic
  let step : Except RouterError (List FilterIdx × DataLog) :=
    match filter_idxs with
    | some v => Except.ok (v, dl)
    | none =>
      if conn.dynamic_filters then
        let ((idx, _cursor), dl) := dl.next_native_offset topic
        Except.ok ([idx], dl)
      else Except.error (RouterError.NoMatchingFilters topic)
  match step with
  | Except.error e => Except.error e
  | Except.ok (filter_idxs, dl) =>
    let r := filter_idxs.foldl
      (fun acc idx =>
        let (offset, dl', n') := DataLog.append_at acc.2.1 idx publish acc.2.2
        (offset, dl', n'))
      (((0, 0) : Offset), dl, notifications)
    Except.ok r

/-- `append_to_commitlog` (routing.rs): decode the topic (total on the
modelled string topics), enforce the tenant topic check, then append. -/
def append_to_commitlog (conn : Connection) (publish : Publish) (dl : DataLog)
    (notifications : List (ConnectionId × DataRequest)) :
    Except RouterError (Offset × DataLog × List (ConnectionId × DataRequest)) :=
  match conn.tenantPrefix with
  | some tenant =>
    if strStartsWith publish.topic tenant then
      append_to_commitlog_rest conn publish dl notifications
    else Except.error (RouterError.BadTenant tenant publish.topic)
  | none => append_to_commitlog_rest conn publish dl notifications

/-- Result of the `Packet::Publish` arm of `Router::handle_device_payload`
for one packet. -/
structure PublishArmResult where
  acklog : AckLog
  dl : DataLog
  notifications : List (ConnectionId × DataRequest)
  force_ack : Bool
  new_data : Bool
  disconnect : Bool
deriving DecidableEq

/-- The `Packet::Publish` arm of `Router::handle_device_payload`: QoS 1
enqueues `PubAck`, QoS 2 enqueues `PubRec`, records the publish and skips
the append (`continue`); QoS 0/1 go through `append_to_commitlog`, whose
success sets `new_data` and whose failure sets `disconnect`. -/
def handle_publish_packet (conn : Connection) (acklog : AckLog) (dl : DataLog)
    (notifications : List (ConnectionId × DataRequest)) (publish : Publish) :
    PublishArmResult :=
  match publish.qos with
  | QoS.ExactlyOnce =>
    { acklog := acklog.pubrec publish { pkid := publish.pkid }, dl := dl,
      notifications := notifications, force_ack := true, new_data := false,
      disconnect := false }
  | q =>
    let (acklog, force_ack) :=
      match q with
      | QoS.AtLeastOnce => (acklog.puback { pkid := publish.pkid }, true)
      | _ => (acklog, false)
    match append_to_commitlog conn publish dl notifications with
    | Except.ok (_offset, dl', notifications') =>
      { acklog := acklog, dl := dl', notifications := notifications',
        force_ack := force_ack, new_data := true, disconnect := false }
    | Except.error _ =>
      { acklog := acklog, dl := dl, notifications := notifications,
        force_ack := force_ack, new_data := false, disconnect := true }

deriving instance DecidableEq for Except

/-- The publishing connection of the no-matching-filter scenario:
`dynamic_filters := false`, no tenant. -/
def c1conn : Connection :=
  { client_id := "b", clean := true, subscriptions := [], tenantPrefix := none,
    dynamic_filters := false }

/-- A QoS 0 publish to `hello/world` (valid UTF-8, non-empty payload). -/
def c1pub : Publish :=
  { dup := false, qos := QoS.AtMostOnce, retain := false, topic := "hello/world",
    pkid := 0, payload := [1] }

/-- C1: with only the non-matching filter `a/b` present and
`dynamic_filters = false`, a publish to `hello/world` does NOT produce the
`NoMatchingFilters` error: `DataLog::matches` always returns `Some` (an
empty vector when nothing matches), so `append_to_commitlog`'s `None` arms
are dead code.  The call returns `Ok((0, 0))` having appended to no commit
log, the router keeps the connection (`disconnect = false`) and even sets
`new_data = true`.  The claim (and §4.6.1) says this publish must fail
with `NoMatchingFilters` and disconnect the connection. -/
theorem append_no_matching_filters_not_an_error :
    append_to_commitlog c1conn c1pub (DataLog.new ["a/b"]) [] =
      Except.ok ((0, 0), DataLog.new ["a/b"], []) ∧
    (handle_publish_packet c1conn AckLog.new (DataLog.new ["a/b"]) [] c1pub).disconnect
      = false ∧
    (handle_publish_packet c1conn AckLog.new (DataLog.new ["a/b"]) [] c1pub).new_data
      = true := by
  decide

theorem alistLookup_insert_self {V : Type} (l : List (String × V)) (k : String) (v : V) :
    alistLookup (alistInsert l k v) k = some v := by
  induction l with
  | nil => simp [alistInsert, alistLookup]
  | cons p rest ih =>
    by_cases h : p.1 = k
    · simp [alistInsert, alistLookup, h]
    · simp [alistInsert, alistLookup, h, ih]

theorem alistLookup_none_not_key {V : Type} {l : List (String × V)} {k : String}
    (h : alistLookup l k = none) : k ∉ l.map Prod.fst := by
  induction l with
  | nil => simp
  | cons p rest ih =>
    rw [alistLookup] at h
    by_cases hk : p.1 = k
    · rw [if_pos hk] at h; exact Option.noConfusion h
    · rw [if_neg hk] at h
      simp only [List.map_cons, List.mem_cons]
      rintro (hh | hh)
      · exact hk hh.symm
      · exact ih h hh

theorem alistInsert_absent {V : Type} {l : List (String × V)} {k : String}
    (h : alistLookup l k = none) (v : V) : alistInsert l k v = l ++ [(k, v)] := by
  induction l with
  | nil => rfl
  | cons p rest ih =>
    rw [alistLookup] at h
    by_cases hk : p.1 = k
    · rw [if_pos hk] at h; exact Option.noConfusion h
    · rw [if_neg hk] at h
      show alistInsert (p :: rest) k v = p :: rest ++ [(k, v)]
      cases p with
      | mk k' v' =>
        rw [alistInsert, if_neg hk, ih h]
        simp

theorem alistLookup_append_singleton {V : Type} (l : List (String × V)) (k0 k : String)
    (v0 : V) :
    alistLookup (l ++ [(k0, v0)]) k =
      match alistLookup l k with
      | some v => some v
      | none => if k0 = k then some v0 else none := by
  induction l with
  | nil => simp [alistLookup]
  | cons p rest ih =>
    by_cases h : p.1 = k
    · cases p; simp_all [alistLookup]
    · cases p; simp_all [alistLookup]

theorem alistLookup_map_pair {V W : Type} (g : String → V → W) (l : List (String × V))
    (k : String) :
    alistLookup (l.map fun p => (p.1, g p.1 p.2)) k = (alistLookup l k).map (g k) := by
  induction l with
  | nil => rfl
  | cons p rest ih =>
    by_cases h : p.1 = k
    · subst h; cases p; simp [alistLookup]
    · cases p; simp_all [alistLookup]

theorem alistLookup_mem {V : Type} {l : List (String × V)} {k : String} {v : V}
    (h : alistLookup l k = some v) : (k, v) ∈ l := by
  induction l with
  | nil => exact Option.noConfusion h
  | cons p rest ih =>
    rw [alistLookup] at h
    by_cases hk : p.1 = k
    · rw [if_pos hk] at h
      injection h with h
      cases p
      subst hk
      subst h
      exact List.mem_cons_self _ _
    · rw [if_neg hk] at h
      exact List.mem_cons_of_mem _ (ih h)

theorem snd_nodup_of_key_det {α β : Type} (F : β → Option α) :
    ∀ (l : List (α × β)), (∀ p ∈ l, F p.2 = some p.1) → (l.map Prod.fst).Nodup →
      (l.map Prod.snd).Nodup := by
  intro l
  induction l with
  | nil => intro _ _; simp
  | cons p rest ih =>
    intro hdet hnd
    simp only [List.map_cons, List.nodup_cons] at hnd ⊢
    refine ⟨?_, ih (fun q hq => hdet q (List.mem_cons_of_mem _ hq)) hnd.2⟩
    intro hmem
    obtain ⟨q, hq, hq2⟩ := List.mem_map.1 hmem
    have h1 := hdet p (List.mem_cons_self _ _)
    have h2 := hdet q (List.mem_cons_of_mem _ hq)
    rw [hq2, h1] at h2
    injection h2 with h2
    exact hnd.1 (h2 ▸ List.mem_map_of_mem Prod.fst hq)

theorem get?_some_lt {α : Type} {l : List α} {i : Nat} {a : α}
    (h : l.get? i = some a) : i < l.length := by
  by_contra hlt
  rw [List.get?_eq_none.2 (Nat.le_of_not_lt hlt)] at h
  exact Option.noConfusion h

/-- The filter stored at `native[i]`, when `i` is a live index. -/
def DataLog.filterAt (dl : DataLog) (i : FilterIdx) : Option Filter :=
  (dl.native.get? i).map Data.filter

/-- `filter_indexes` is exactly the name index of `native` (spec §3
invariant `filter_indexes[f] = i ⇔ data_log.native[i].filter = f`). -/
def FIInv (dl : DataLog) : Prop :=
  (∀ p ∈ dl.filter_indexes, dl.filterAt p.2 = some p.1) ∧
  (∀ i f, dl.filterAt i = some f → (f, i) ∈ dl.filter_indexes) ∧
  (dl.filter_indexes.map Prod.fst).Nodup

/-- Correctness of the `publish_filters` cache: every present entry is
exactly (as a duplicate-free list) the set of filter indices whose stored
filter matches the topic. -/
def PFCorrect (dl : DataLog) : Prop :=
  ∀ t l, alistLookup dl.publish_filters t = some l →
    l.Nodup ∧ ∀ i, i ∈ l ↔ ∃ f, dl.filterAt i = some f ∧ protocolMatches t f = true

/-- The cache invariant together with its supporting index invariant. -/
def DLInv (dl : DataLog) : Prop := FIInv dl ∧ PFCorrect dl

/-- The `DataLog` operations of the cache claim. -/
inductive DLOp where
  | matchesOp (topic : Topic)
  | nextOffsetOp (filter : Filter)
  | appendOp (idx : FilterIdx) (p : Publish)
deriving DecidableEq

/-- One `DataLog` operation (the state effect). -/
def dlStep (dl : DataLog) : DLOp → DataLog
  | DLOp.matchesOp t => (dl.matches t).2
  | DLOp.nextOffsetOp f => (dl.next_native_offset f).2
  | DLOp.appendOp idx p => (dl.append_at idx p []).2.1

/-- Reachability by `matches`, `next_native_offset` and appends. -/
inductive DLReach : DataLog → DataLog → Prop
  | refl (dl : DataLog) : DLReach dl dl
  | step {a b : DataLog} (h : DLReach a b) (op : DLOp) : DLReach a (dlStep b op)

theorem FIInv_extend {dl : DataLog} {f : Filter}
    (hl : alistLookup dl.filter_indexes f = none) (h : FIInv dl) (dl' : DataLog)
    (hn : dl'.native = dl.native ++ [Data.new f])
    (hf : dl'.filter_indexes = alistInsert dl.filter_indexes f dl.native.length) :
    FIInv dl' := by
  obtain ⟨hfa, hfb, hfc⟩ := h
  have hfi' : dl'.filter_indexes = dl.filter_indexes ++ [(f, dl.native.length)] := by
    rw [hf, alistInsert_absent hl]
  have hAt_lt : ∀ i, i < dl.native.length → dl'.filterAt i = dl.filterAt i := by
    intro i hi
    rw [DataLog.filterAt, DataLog.filterAt, hn, List.get?_append hi]
  have hAt_eq : dl'.filterAt dl.native.length = some f := by
    rw [DataLog.filterAt, hn, List.get?_concat_length]
    rfl
  have hAt_gt : ∀ i, dl.native.length < i → dl'.filterAt i = none := by
    intro i hi
    rw [DataLog.filterAt, hn, List.get?_eq_none.2 (by simp; omega)]
    rfl
  refine ⟨?_, ?_, ?_⟩
  · intro p hp
    rw [hfi'] at hp
    rcases List.mem_append.1 hp with hp | hp
    · have := hfa p hp
      have hlt : p.2 < dl.native.length := by
        rw [DataLog.filterAt] at this
        cases hq : dl.native.get? p.2 with
        | none => rw [hq] at this; exact Option.noConfusion this
        | some d => exact get?_some_lt hq
      rw [hAt_lt p.2 hlt]
      exact this
    · have hp := List.mem_singleton.1 hp
      subst hp
      exact hAt_eq
  · intro i f' hif
    rw [hfi']
    rcases Nat.lt_trichotomy i dl.native.length with hlt | heq | hgt
    · rw [hAt_lt i hlt] at hif
      exact List.mem_append_left _ (hfb i f' hif)
    · subst heq
      rw [hAt_eq] at hif
      injection hif with hif
      subst hif
      exact List.mem_append_right _ (List.mem_singleton.2 rfl)
    · rw [hAt_gt i hgt] at hif
      exact Option.noConfusion hif
  · rw [hfi', List.map_append]
    refine ((List.perm_append_singleton _ _).nodup_iff).2 (List.nodup_cons.2 ⟨?_, hfc⟩)
    exact alistLookup_none_not_key hl

theorem DLInv_matches (dl : DataLog) (t : Topic) (h : DLInv dl) :
    DLInv (dl.matches t).2 := by
  obtain ⟨hfi, hpf⟩ := h
  cases hl : alistLookup dl.publish_filters t with
  | some v => simp only [DataLog.matches, hl]; exact ⟨hfi, hpf⟩
  | none =>
    cases hemp : ((dl.filter_indexes.filter fun fi => protocolMatches t fi.1).map
        fun fi => fi.2).isEmpty with
    | true =>
      have hsnd : (dl.matches t).2 = dl := by
        simp [DataLog.matches, hl, hemp]
      rw [hsnd]
      exact ⟨hfi, hpf⟩
    | false =>
      have hsnd : (dl.matches t).2 = { dl with publish_filters := alistInsert dl.publish_filters t ((dl.filter_indexes.filter fun fi => protocolMatches t fi.1).map fun fi => fi.2) } := by
        simp [DataLog.matches, hl, hemp]
      rw [hsnd]
      refine ⟨⟨hfi.1, hfi.2.1, hfi.2.2⟩, ?_⟩
      intro t' l' hl'
      have hl2 : alistLookup (alistInsert dl.publish_filters t
          ((dl.filter_indexes.filter fun fi => protocolMatches t fi.1).map
            fun fi => fi.2)) t' = some l' := hl'
      rw [alistInsert_absent hl, alistLookup_append_singleton] at hl2
      cases hw : alistLookup dl.publish_filters t' with
      | some w =>
        rw [hw] at hl2
        have hl3 : w = l' := by
          cases hl2
          rfl
        subst hl3
        exact hpf t' w hw
      | none =>
        rw [hw] at hl2
        by_cases ht' : t = t'
        · have hl3 : ((dl.filter_indexes.filter fun fi => protocolMatches t fi.1).map
              fun fi => fi.2) = l' := by
            rw [if_pos ht'] at hl2
            cases hl2
            rfl
          subst hl3
          subst ht'
          constructor
          · have hsnd2 : (dl.filter_indexes.map Prod.snd).Nodup :=
              snd_nodup_of_key_det dl.filterAt dl.filter_indexes hfi.1 hfi.2.2
            exact List.Nodup.sublist
              (List.Sublist.map _ (List.filter_sublist dl.filter_indexes)) hsnd2
          · intro i
            constructor
            · intro hi
              obtain ⟨p, hp, hpi⟩ := List.mem_map.1 hi
              have hpz := List.mem_filter.1 hp
              exact ⟨p.1, hpi ▸ hfi.1 p hpz.1, hpz.2⟩
            · rintro ⟨f, hfa, hm⟩
              have hmem := hfi.2.1 i f hfa
              exact List.mem_map.2 ⟨(f, i), List.mem_filter.2 ⟨hmem, hm⟩, rfl⟩
        · rw [if_neg ht'] at hl2
          exact Option.noConfusion hl2

theorem DLInv_next (dl : DataLog) (f : Filter) (h : DLInv dl) :
    DLInv (dl.next_native_offset f).2 := by
  obtain ⟨hfi, hpf⟩ := h
  cases hl : alistLookup dl.filter_indexes f with
  | some idx => simp only [DataLog.next_native_offset, hl]; exact ⟨hfi, hpf⟩
  | none =>
    simp only [DataLog.next_native_offset, hl]
    set dl' : DataLog :=
      { native := dl.native ++ [Data.new f],
        filter_indexes := alistInsert dl.filter_indexes f dl.native.length,
        retained_publishes := dl.retained_publishes,
        publish_filters := dl.publish_filters.map fun tl =>
          if protocolMatches tl.1 f then (tl.1, tl.2 ++ [dl.native.length]) else tl } with hdl'
    have hfi' : FIInv dl' := FIInv_extend hl ⟨hfi.1, hfi.2.1, hfi.2.2⟩ dl' rfl rfl
    refine ⟨hfi', ?_⟩
    have hAt_lt : ∀ i, i < dl.native.length → dl'.filterAt i = dl.filterAt i := by
      intro i hi
      rw [DataLog.filterAt, DataLog.filterAt]
      show ((dl.native ++ [Data.new f]).get? i).map Data.filter = _
      rw [List.get?_append hi]
    have hAt_eq : dl'.filterAt dl.native.length = some f := by
      rw [DataLog.filterAt]
      show ((dl.native ++ [Data.new f]).get? dl.native.length).map Data.filter = some f
      rw [List.get?_concat_length]
      rfl
    have hAt_gt : ∀ i, dl.native.length < i → dl'.filterAt i = none := by
      intro i hi
      rw [DataLog.filterAt]
      show ((dl.native ++ [Data.new f]).get? i).map Data.filter = none
      rw [List.get?_eq_none.2 (by simp; omega)]
      rfl
    have hmapeq : dl'.publish_filters = dl.publish_filters.map fun p =>
        (p.1, if protocolMatches p.1 f then p.2 ++ [dl.native.length] else p.2) := by
      show dl.publish_filters.map _ = _
      refine List.map_congr_left ?_
      intro p _
      by_cases hp : protocolMatches p.1 f <;> simp [hp]
    have hbound : ∀ (t : Topic) (l : List FilterIdx),
        alistLookup dl.publish_filters t = some l → ∀ i ∈ l, i < dl.native.length := by
      intro t l hlk i hi
      obtain ⟨f', hfa, _⟩ := ((hpf t l hlk).2 i).1 hi
      rw [DataLog.filterAt] at hfa
      cases hq : dl.native.get? i with
      | none => rw [hq] at hfa; exact Option.noConfusion hfa
      | some d => exact get?_some_lt hq
    intro t l' hl'
    rw [hmapeq, alistLookup_map_pair (fun k v => if protocolMatches k f then
      v ++ [dl.native.length] else v) dl.publish_filters t] at hl'
    cases hw : alistLookup dl.publish_filters t with
    | none => rw [hw] at hl'; exact Option.noConfusion hl'
    | some l =>
      rw [hw] at hl'
      injection hl' with hl'
      obtain ⟨hnd, hiff⟩ := hpf t l hw
      by_cases hm : protocolMatches t f
      · have hl2 : l ++ [dl.native.length] = l' := by rw [← hl']; simp [hm]
        subst hl2
        constructor
        · refine ((List.perm_append_singleton _ _).nodup_iff).2 (List.nodup_cons.2 ⟨?_, hnd⟩)
          intro hin
          exact Nat.lt_irrefl _ (hbound t l hw _ hin)
        · intro i
          constructor
          · intro hi
            rcases List.mem_append.1 hi with hi | hi
            · obtain ⟨f', hfa, hmm⟩ := (hiff i).1 hi
              exact ⟨f', by rw [hAt_lt i (hbound t l hw i hi)]; exact hfa, hmm⟩
            · have hi := List.mem_singleton.1 hi
              subst hi
              exact ⟨f, hAt_eq, hm⟩
          · rintro ⟨f', hfa, hmm⟩
            rcases Nat.lt_trichotomy i dl.native.length with hlt | heq | hgt
            · rw [hAt_lt i hlt] at hfa
              exact List.mem_append_left _ ((hiff i).2 ⟨f', hfa, hmm⟩)
            · subst heq
              exact List.mem_append_right _ (List.mem_singleton.2 rfl)
            · rw [hAt_gt i hgt] at hfa
              exact Option.noConfusion hfa
      · have hl2 : l = l' := by rw [← hl']; simp [hm]
        subst hl2
        refine ⟨hnd, ?_⟩
        intro i
        constructor
        · intro hi
          obtain ⟨f', hfa, hmm⟩ := (hiff i).1 hi
          exact ⟨f', by rw [hAt_lt i (hbound t l hw i hi)]; exact hfa, hmm⟩
        · rintro ⟨f', hfa, hmm⟩
          rcases Nat.lt_trichotomy i dl.native.length with hlt | heq | hgt
          · rw [hAt_lt i hlt] at hfa
            exact (hiff i).2 ⟨f', hfa, hmm⟩
          · subst heq
            rw [hAt_eq] at hfa
            injection hfa with hfa
            subst hfa
            exact absurd hmm (by simp [hm])
          · rw [hAt_gt i hgt] at hfa
            exact Option.noConfusion hfa

theorem DLInv_transfer {dl dl' : DataLog} (h : DLInv dl)
    (hAt : ∀ i, dl'.filterAt i = dl.filterAt i)
    (hfi : dl'.filter_indexes = dl.filter_indexes)
    (hpf : dl'.publish_filters = dl.publish_filters) : DLInv dl' := by
  obtain ⟨⟨hfa, hfb, hfc⟩, hp⟩ := h
  refine ⟨⟨?_, ?_, ?_⟩, ?_⟩
  · intro p hp2
    rw [hfi] at hp2
    rw [hAt]
    exact hfa p hp2
  · intro i f hif
    rw [hAt] at hif
    rw [hfi]
    exact hfb i f hif
  · rw [hfi]
    exact hfc
  · intro t l hl
    rw [hpf] at hl
    obtain ⟨hnd, hiff⟩ := hp t l hl
    refine ⟨hnd, ?_⟩
    intro i
    rw [hAt]
    exact hiff i

theorem DLInv_append (dl : DataLog) (idx : FilterIdx) (p : Publish)
    (notifs : List (ConnectionId × DataRequest)) (h : DLInv dl) :
    DLInv (dl.append_at idx p notifs).2.1 := by
  cases hg : dl.native.get? idx with
  | none => simp only [DataLog.append_at, hg]; exact h
  | some d =>
    simp only [DataLog.append_at, hg]
    refine DLInv_transfer h ?_ rfl rfl
    intro i
    by_cases hi : i = idx
    · subst hi
      show ((dl.native.set i ((d.append p notifs).2.1)).get? i).map Data.filter =
        (dl.native.get? i).map Data.filter
      rw [List.get?_set_eq, hg]
      rfl
    · show ((dl.native.set idx ((d.append p notifs).2.1)).get? i).map Data.filter =
        (dl.native.get? i).map Data.filter
      rw [List.get?_set_ne _ _ (fun hh => hi hh.symm)]

theorem alistLookup_append_singleton_none {V : Type} {l : List (String × V)} {k0 k : String}
    {v0 : V} (h : alistLookup l k = none) (hne : k0 ≠ k) :
    alistLookup (l ++ [(k0, v0)]) k = none := by
  rw [alistLookup_append_singleton, h, if_neg hne]

theorem DLInv_new_aux (cfg : List Filter) :
    ∀ dl : DataLog, FIInv dl → dl.publish_filters = [] →
      (∀ f ∈ cfg, alistLookup dl.filter_indexes f = none) → cfg.Nodup →
      FIInv (cfg.foldl (fun dl filter => { dl with native := dl.native ++ [Data.new filter], filter_indexes := alistInsert dl.filter_indexes filter dl.native.length }) dl) ∧
      (cfg.foldl (fun dl filter => { dl with native := dl.native ++ [Data.new filter], filter_indexes := alistInsert dl.filter_indexes filter dl.native.length }) dl).publish_filters = [] := by
  induction cfg with
  | nil => intro dl h1 h2 _ _; exact ⟨h1, h2⟩
  | cons f rest ih =>
    intro dl h1 h2 habs hnd
    rw [List.foldl_cons]
    have hlf : alistLookup dl.filter_indexes f = none := habs f (List.mem_cons_self _ _)
    refine ih _ (FIInv_extend hlf h1 _ rfl rfl) h2 ?_ (List.nodup_cons.1 hnd).2
    intro f' hf'
    show alistLookup (alistInsert dl.filter_indexes f dl.native.length) f' = none
    rw [alistInsert_absent hlf]
    refine alistLookup_append_singleton_none (habs f' (List.mem_cons_of_mem _ hf')) ?_
    intro hh
    exact (List.nodup_cons.1 hnd).1 (hh ▸ hf')

theorem DLInv_new (cfg : List Filter) (hcfg : cfg.Nodup) : DLInv (DataLog.new cfg) := by
  have hbase : FIInv { native := [], filter_indexes := [], retained_publishes := [], publish_filters := [] } := by
    refine ⟨?_, ?_, ?_⟩
    · intro p hp
      cases hp
    · intro i f hif
      exact Option.noConfusion hif
    · exact List.nodup_nil
  have h := DLInv_new_aux cfg
      { native := [], filter_indexes := [], retained_publishes := [], publish_filters := [] }
      hbase rfl (by intro f _; rfl) hcfg
  refine ⟨h.1, ?_⟩
  intro t l hl
  rw [show (DataLog.new cfg).publish_filters = [] from h.2] at hl
  exact Option.noConfusion hl

theorem DLInv_reach {dl0 dl : DataLog} (h0 : DLInv dl0) (h : DLReach dl0 dl) : DLInv dl := by
  induction h with
  | refl => exact h0
  | step h1 op ih =>
    cases op with
    | matchesOp t => exact DLInv_matches _ t ih
    | nextOffsetOp f => exact DLInv_next _ f ih
    | appendOp idx p => exact DLInv_append _ idx p [] ih

theorem matches_memoizes_nonempty (dl : DataLog) (t : Topic) (v : List FilterIdx)
    (dl' : DataLog) (h : dl.matches t = (some v, dl')) (hne : v ≠ []) :
    alistLookup dl'.publish_filters t = some v := by
  cases hl : alistLookup dl.publish_filters t with
  | some w =>
    rw [DataLog.matches, hl] at h
    injection h with h1 h2
    injection h1 with h1
    subst h1
    subst h2
    exact hl
  | none =>
    simp only [DataLog.matches, hl] at h
    cases hemp : ((dl.filter_indexes.filter fun fi => protocolMatches t fi.1).map
        fun fi => fi.2).isEmpty with
    | true =>
      rw [hemp, if_pos rfl] at h
      injection h with h1 h2
      injection h1 with h1
      subst h1
      exact absurd (List.isEmpty_iff.1 hemp) hne
    | false =>
      rw [hemp, if_neg Bool.false_ne_true] at h
      injection h with h1 h2
      injection h1 with h1
      subst h1
      subst h2
      exact alistLookup_insert_self _ _ _

theorem next_native_offset_updates_cache (dl : DataLog) (f : Filter) (t : Topic)
    (l : List FilterIdx) (hf : alistLookup dl.filter_indexes f = none)
    (ht : alistLookup dl.publish_filters t = some l) :
    alistLookup ((dl.next_native_offset f).2).publish_filters t =
      some (if protocolMatches t f then l ++ [dl.native.length] else l) := by
  simp only [DataLog.next_native_offset, hf]
  have hmapeq : (dl.publish_filters.map fun tl =>
        if protocolMatches tl.1 f then (tl.1, tl.2 ++ [dl.native.length]) else tl) =
      dl.publish_filters.map fun p =>
        (p.1, if protocolMatches p.1 f then p.2 ++ [dl.native.length] else p.2) := by
    refine List.map_congr_left ?_
    intro p _
    by_cases hp : protocolMatches p.1 f <;> simp [hp]
  show alistLookup (dl.publish_filters.map fun tl =>
      if protocolMatches tl.1 f then (tl.1, tl.2 ++ [dl.native.length]) else tl) t = _
  rw [hmapeq, alistLookup_map_pair (fun k v =>
    if protocolMatches k f then v ++ [dl.native.length] else v) dl.publish_filters t, ht]
  rfl

/-- C7 (amended): in every `DataLog` state reachable via `matches`,
`next_native_offset` and the append operations from `DataLog::new` with
duplicate-free `initialized_filters`, every present `publish_filters`
entry equals exactly (as a duplicate-free list) the set of indices `i`
whose stored filter `native[i].filter` matches the topic; `matches`
memoizes the computed list on first lookup **when it is non-empty** (an
empty match list is not cached — the unqualified memoization clause is
refuted by `matches_does_not_memoize_empty`); and `next_native_offset`,
when it creates a new filter index, appends that index in place to every
cached entry whose topic matches the new filter. -/
theorem datalog_publish_filters_cache (cfg : List Filter) (dl : DataLog)
    (hcfg : cfg.Nodup) (h : DLReach (DataLog.new cfg) dl) :
    PFCorrect dl ∧
    (∀ t v dl', dl.matches t = (some v, dl') → v ≠ [] →
      alistLookup dl'.publish_filters t = some v) ∧
    (∀ f t l, alistLookup dl.filter_indexes f = none →
      alistLookup dl.publish_filters t = some l →
      alistLookup ((dl.next_native_offset f).2).publish_filters t =
        some (if protocolMatches t f then l ++ [dl.native.length] else l)) := by
  refine ⟨(DLInv_reach (DLInv_new cfg hcfg) h).2, ?_, ?_⟩
  · intro t v dl' hm hne
    exact matches_memoizes_nonempty dl t v dl' hm hne
  · intro f t l hf ht
    exact next_native_offset_updates_cache dl f t l hf ht

/-- Witness for the amended cache claim at the empty warmup configuration
and the initial state itself. -/
theorem datalog_publish_filters_cache_witness :
    PFCorrect (DataLog.new []) ∧
    (∀ t v dl', (DataLog.new []).matches t = (some v, dl') → v ≠ [] →
      alistLookup dl'.publish_filters t = some v) ∧
    (∀ f t l, alistLookup (DataLog.new []).filter_indexes f = none →
      alistLookup (DataLog.new []).publish_filters t = some l →
      alistLookup (((DataLog.new []).next_native_offset f).2).publish_filters t =
        some (if protocolMatches t f then l ++ [(DataLog.new []).native.length] else l)) :=
  datalog_publish_filters_cache [] (DataLog.new []) List.nodup_nil (DLReach.refl _)

/-- C7 counterexample to the unqualified memoization clause: with the
single filter `a/b`, `matches "x"` computes the empty index list and does
NOT memoize it — `publish_filters` still has no entry for `x` after the
first lookup. -/
theorem matches_does_not_memoize_empty :
    ((DataLog.new ["a/b"]).matches "x").1 = some [] ∧
    alistLookup ((DataLog.new ["a/b"]).matches "x").2.publish_filters "x" = none := by
  decide

theorem retained_foldl_log (filter : Filter) (idx : FilterIdx)
    (ps : List (Topic × Publish)) :
    ∀ (dl : DataLog) (notifs : List (ConnectionId × DataRequest)) (d : Data),
      dl.native.get? idx = some d →
      ∃ d', (ps.foldl (fun acc tp =>
              if protocolMatches tp.1 filter then
                let r := acc.1.append_at idx tp.2 acc.2
                (r.2.1, r.2.2)
              else acc) (dl, notifs)).1.native.get? idx = some d' ∧
        d'.log.items = d.log.items ++
          ((ps.filter fun tp => protocolMatches tp.1 filter).map fun tp => tp.2) ∧
        d'.filter = d.filter := by
  induction ps with
  | nil =>
    intro dl notifs d hd
    exact ⟨d, hd, by simp, rfl⟩
  | cons tp rest ih =>
    intro dl notifs d hd
    rw [List.foldl_cons]
    by_cases hm : protocolMatches tp.1 filter
    · rw [if_pos hm]
      have hd1 : (dl.append_at idx tp.2 notifs).2.1.native.get? idx =
          some ((d.append tp.2 notifs).2.1) := by
        simp only [DataLog.append_at, hd]
        show (dl.native.set idx ((d.append tp.2 notifs).2.1)).get? idx = _
        rw [List.get?_set_eq, hd]
        rfl
      obtain ⟨d', hget, hitems, hfil⟩ :=
        ih (dl.append_at idx tp.2 notifs).2.1 (dl.append_at idx tp.2 notifs).2.2
          ((d.append tp.2 notifs).2.1) hd1
      have h2 : d'.log.items = d.log.items ++
          (((tp :: rest).filter fun tp => protocolMatches tp.1 filter).map
            fun tp => tp.2) := by
        rw [hitems]
        have hrec : ((d.append tp.2 notifs).2.1).log.items = d.log.items ++ [tp.2] := rfl
        rw [hrec]
        simp [List.filter_cons, hm]
      have h3 : d'.filter = d.filter := by
        rw [hfil]
        rfl
      exact ⟨d', hget, h2, h3⟩
    · rw [if_neg hm]
      obtain ⟨d', hget, hitems, hfil⟩ := ih dl notifs d hd
      have h2 : d'.log.items = d.log.items ++
          (((tp :: rest).filter fun tp => protocolMatches tp.1 filter).map
            fun tp => tp.2) := by
        rw [hitems]
        simp [List.filter_cons, hm]
      exact ⟨d', hget, h2, hfil⟩

/-- C8: when a connection subscribes to `filter` (whose commit log exists:
the router has just run `next_native_offset`), `handle_retained_messages`
appends to that filter's log exactly one copy of every stored retained
publish whose topic matches the filter, in store order, and appends
nothing for the non-matching ones: the log afterwards is the old log
followed by precisely the matching retained publishes. -/
theorem handle_retained_messages_replays_matching (dl : DataLog) (filter : Filter)
    (idx : FilterIdx) (d : Data) (notifs : List (ConnectionId × DataRequest))
    (hidx : alistLookup dl.filter_indexes filter = some idx)
    (hd : dl.native.get? idx = some d) :
    ∃ dl' notifs' d', dl.handle_retained_messages filter notifs = some (dl', notifs') ∧
      dl'.native.get? idx = some d' ∧
      d'.log.items = d.log.items ++
        ((dl.retained_publishes.filter fun tp => protocolMatches tp.1 filter).map
          fun tp => tp.2) := by
  obtain ⟨d', hget, hitems, _⟩ := retained_foldl_log filter idx dl.retained_publishes
    dl notifs d hd
  refine ⟨_, (dl.retained_publishes.foldl (fun acc tp => if protocolMatches tp.1 filter then (let r := acc.1.append_at idx tp.2 acc.2; (r.2.1, r.2.2)) else acc) (dl, notifs)).2, d', ?_, hget, hitems⟩
  rw [DataLog.handle_retained_messages, hidx]
  rfl

/-- A `DataLog` holding filter `r/#` at index 0 together with one matching
and one non-matching retained publish. -/
def c8dl : DataLog :=
  { native := [Data.new "r/#"],
    filter_indexes := [("r/#", 0)],
    retained_publishes :=
      [("r/t", { dup := false, qos := QoS.AtMostOnce, retain := true, topic := "r/t",
                 pkid := 0, payload := [107] }),
       ("x", { dup := false, qos := QoS.AtMostOnce, retain := true, topic := "x",
               pkid := 0, payload := [110] })],
    publish_filters := [] }

/-- Witness for the retained-replay claim: on `c8dl`, subscribing to
`r/#` replays exactly the retained publish on `r/t` (and not the one on
`x`) into log 0. -/
theorem handle_retained_messages_replays_matching_witness :
    ∃ dl' notifs' d', c8dl.handle_retained_messages "r/#" [] = some (dl', notifs') ∧
      dl'.native.get? 0 = some d' ∧
      d'.log.items = (Data.new "r/#").log.items ++
        ((c8dl.retained_publishes.filter fun tp => protocolMatches tp.1 "r/#").map
          fun tp => tp.2) :=
  handle_retained_messages_replays_matching c8dl "r/#" 0 (Data.new "r/#") []
    (by decide) (by decide)

/-- `routing::ConsumeStatus`. -/
inductive ConsumeStatus where
  | BufferFull
  | InflightFull
  | FilterCaughtup
  | PartialRead
deriving DecidableEq

/-- `router::Forward` notification. -/
structure Forward where
  cursor : Offset
  size : Nat
  publish : Publish
deriving DecidableEq

/-- `forward_device_data` (routing.rs).  The outgoing buffer is external
(iobufs.rs is not under src/): its observables are passed in —
`free_slots` (the QoS 1 inflight window) and `buffer_len_after` (the
buffer length `push_forwards` reports after the push); `max_read_len` and
`max_channel_capacity` are the configured bounds.  `none` models the
panicking paths (unknown filter index in `native_readv`'s `unwrap`,
`protocol::qos(request.qos).unwrap()` on a QoS above 2).  Otherwise the
status, the updated request (cursor advanced to the read's end,
`read_count` bumped) and the forwards pushed into the outgoing buffer are
returned; the cursor-jump check only logs, so it has no state effect. -/
def forward_device_data (request : DataRequest) (dl : DataLog) (free_slots : Nat)
    (max_read_len : Nat) (buffer_len_after : Nat) (max_channel_capacity : Nat) :
    Option (ConsumeStatus × DataRequest × List Forward) :=
  if request.qos = 1 ∧ free_slots = 0 then
    some (ConsumeStatus.InflightFull, request, [])
  else
    let inflight_slots := if request.qos = 1 then free_slots else max_read_len
    match dl.native_readv request.filter_idx request.cursor inflight_slots with
    | none => none
    | some (next, publishes) =>
      let nxt :=
        match next with
        | Position.Next _ stop => stop
        | Position.Done _ stop => stop
      let caughtup :=
        match next with
        | Position.Next _ _ => false
        | Position.Done _ _ => true
      let qos := request.qos
      let request := { request with read_count := request.read_count + publishes.length, cursor := nxt }
      if publishes.isEmpty then some (ConsumeStatus.FilterCaughtup, request, [])
      else
        match protocolQos qos with
        | none => none
        | some q =>
          let forwards := publishes.map fun p =>
            { cursor := nxt, size := 0, publish := { p with qos := q } }
          if max_channel_capacity - 1 ≤ buffer_len_after then
            some (ConsumeStatus.BufferFull, request, forwards)
          else if caughtup then some (ConsumeStatus.FilterCaughtup, request, forwards)
          else some (ConsumeStatus.PartialRead, request, forwards)

/-- A stored QoS 0 publish on topic `t`. -/
def c3pub : Publish :=
  { dup := false, qos := QoS.AtMostOnce, retain := false, topic := "t", pkid := 0,
    payload := [1] }

/-- A data log whose filter 0 (`t`) holds exactly `c3pub`. -/
def c3dl : DataLog :=
  { native := [{ filter := "t", log := { items := [c3pub] }, waiters := [], meter := SubscriptionMeter.default }],
    filter_indexes := [("t", 0)], retained_publishes := [], publish_filters := [] }

/-- A QoS 1 subscriber request on filter 0 from cursor `(0, 0)`. -/
def c3req : DataRequest :=
  { filter := "t", filter_idx := 0, qos := 1, cursor := (0, 0), read_count := 0,
    max_count := 100 }

/-- The forwarded copy that run produces. -/
def c3fw : Forward :=
  { cursor := (0, 1), size := 0, publish := { c3pub with qos := QoS.AtLeastOnce } }

/-- C3: counterexample to the min-downgrade claim.  Forwarding the stored
QoS 0 publish to a QoS 1 request produces a forwarded copy with QoS 1
(the request's QoS is assigned outright), while
`min(publish.qos, request.qos) = 0`. -/
theorem forward_device_data_qos_not_min :
    ((forward_device_data c3req c3dl 5 10 0 200).map
      fun r => r.2.2.map fun fw => fw.publish.qos.toNat) = some [1] ∧
    min c3pub.qos.toNat c3req.qos = 0 := by
  decide

/-- C3 (amended): every publish forwarded by `forward_device_data`
carries exactly the request's QoS (`publish.qos = protocol::qos(request.qos)`),
regardless of the publish's own QoS — the `min(publish.qos, request.qos)`
form of the claim is refuted by `forward_device_data_qos_not_min`. -/
theorem forward_device_data_assigns_request_qos (request : DataRequest) (dl : DataLog)
    (free_slots max_read_len buffer_len_after max_channel_capacity : Nat)
    (st : ConsumeStatus) (req' : DataRequest) (fwds : List Forward)
    (h : forward_device_data request dl free_slots max_read_len buffer_len_after
      max_channel_capacity = some (st, req', fwds)) :
    ∀ fw ∈ fwds, protocolQos request.qos = some fw.publish.qos := by
  intro fw hfw
  unfold forward_device_data at h
  split at h
  · injection h with h
    injection h with h1 h2
    injection h2 with h2 h3
    subst h3
    cases hfw
  · dsimp only [] at h
    repeat' split at h
    all_goals first
      | exact Option.noConfusion h
      | (injection h with h
         injection h with h1 h2
         injection h2 with h2 h3
         subst h3
         first
           | cases hfw
           | (obtain ⟨p, hp, hpe⟩ := List.mem_map.1 hfw
              rw [← hpe]
              assumption))

/-- Witness for the amended QoS-assignment claim at the concrete run on
`c3dl`: the single forwarded copy's QoS is the request's QoS 1. -/
theorem forward_device_data_assigns_request_qos_witness :
    protocolQos c3req.qos = some c3fw.publish.qos :=
  forward_device_data_assigns_request_qos c3req c3dl 5 10 0 200
    ConsumeStatus.FilterCaughtup
    { c3req with read_count := 1, cursor := (0, 1) } [c3fw] (by decide) c3fw (by decide)

/-- `protocol::Filter` as carried in a Subscribe packet (the fields the
router reads). -/
structure SubFilter where
  path : String
  qos : QoS
deriving DecidableEq

/-- `validate_subscription` (routing.rs); `some e` is the `Err(e)` case. -/
def validate_subscription (connection : Connection) (f : SubFilter) : Option RouterError :=
  if (match connection.tenantPrefix with
      | some tenant => !(strStartsWith f.path tenant)
      | none => false) then some (RouterError.InvalidFilterPrefix f.path)
  else if f.qos = QoS.ExactlyOnce then some (RouterError.UnsupportedQoS f.qos)
  else if strStartsWith f.path "test" || strStartsWith f.path "$" then
    some (RouterError.InvalidFilterPrefix f.path)
  else none

/-- The `SubscribeReasonCode` mirrored from the requested QoS. -/
def subscribe_return_code : QoS → SubscribeReasonCode
  | QoS.AtMostOnce => SubscribeReasonCode.QoS0
  | QoS.AtLeastOnce => SubscribeReasonCode.QoS1
  | QoS.ExactlyOnce => SubscribeReasonCode.QoS2

/-- The per-connection router state the Subscribe arm touches. -/
structure SubState where
  connection : Connection
  datalog : DataLog
  acklog : AckLog
  scheduler : Scheduler
  subscription_map : List (Filter × List ConnectionId)
  notifications : List (ConnectionId × DataRequest)
deriving DecidableEq

/-- `Router::prepare_filter`: register the id in `subscription_map`; on a
new subscription add the filter to the connection's set, track a fresh
`DataRequest {cursor, read_count := 0, max_count := 100}` and reschedule
with `NewFilter` (`none` models the `unwrap` on a missing tracker).  The
meter counters carry no state the claims read. -/
def prepare_filter (id : ConnectionId) (s : SubState) (cursor : Offset)
    (filter_idx : FilterIdx) (filter : Filter) (qos : Nat) : Option SubState :=
  let subscription_map :=
    match alistLookup s.subscription_map filter with
    | some conns =>
      alistInsert s.subscription_map filter (if id ∈ conns then conns else conns ++ [id])
    | none => alistInsert s.subscription_map filter [id]
  let s := { s with subscription_map := subscription_map }
  if s.connection.subscriptions.contains filter then some s
  else
    let connection := { s.connection with subscriptions := s.connection.subscriptions ++ [filter] }
    let request : DataRequest := { filter := filter, filter_idx := filter_idx, qos := qos, cursor := cursor, read_count := 0, max_count := 100 }
    (s.scheduler.track id request).bind fun sched =>
      (sched.reschedule id ScheduleReason.NewFilter).map fun sched2 =>
        { s with connection := connection, scheduler := sched2 }

/-- The `for f in s.filters` loop of the Subscribe arm: on a validation
error set `disconnect` and break; otherwise `next_native_offset`,
`prepare_filter`, retained replay, and push the mirrored return code. -/
def subscribe_filters_loop (id : ConnectionId) (s : SubState)
    (return_codes : List SubscribeReasonCode) (disconnect : Bool) :
    List SubFilter → Option (SubState × List SubscribeReasonCode × Bool)
  | [] => some (s, return_codes, disconnect)
  | f :: rest =>
    match validate_subscription s.connection f with
    | some _ => some (s, return_codes, true)
    | none =>
      let filter := f.path
      let r := s.datalog.next_native_offset filter
      let s1 := { s with datalog := r.2 }
      (prepare_filter id s1 r.1.2 r.1.1 filter f.qos.toNat).bind fun s2 =>
        match s2.datalog.handle_retained_messages filter s2.notifications with
        | none => none
        | some dn =>
          let s3 := { s2 with datalog := dn.1, notifications := dn.2 }
          subscribe_filters_loop id s3 (return_codes ++ [subscribe_return_code f.qos])
            disconnect rest

/-- Result of the Subscribe arm. -/
structure SubscribeArmResult where
  state : SubState
  disconnect : Bool
  force_ack : Bool
deriving DecidableEq

/-- The `Packet::Subscribe` arm of `Router::handle_device_payload`:
process the filters (breaking to `disconnect` on the first invalid one),
then, unconditionally, enqueue a single `SubAck` with the collected
return codes and set `force_ack`. -/
def handle_subscribe (id : ConnectionId) (s : SubState) (pkid : Nat)
    (filters : List SubFilter) : Option SubscribeArmResult :=
  (subscribe_filters_loop id s [] false filters).map fun r =>
    let suback : SubAck := { pkid := pkid, return_codes := r.2.1 }
    { state := { r.1 with acklog := r.1.acklog.suback suback },
      disconnect := r.2.2, force_ack := true }

/-- The subscribing connection of the invalid-subscribe scenario. -/
def c4conn : Connection :=
  { client_id := "a", clean := true, subscriptions := [], tenantPrefix := none,
    dynamic_filters := false }

/-- Initial state: fresh logs, one tracker at id 0. -/
def c4state : SubState :=
  { connection := c4conn, datalog := DataLog.new [], acklog := AckLog.new,
    scheduler := { trackers := [some (Tracker.new "a")], readyqueue := [] },
    subscription_map := [], notifications := [] }

/-- A valid filter followed by an invalid one (`test` path). -/
def c4filters : List SubFilter :=
  [{ path := "a/b", qos := QoS.AtLeastOnce }, { path := "test/x", qos := QoS.AtMostOnce }]

/-- C4: counterexample — subscribing `[a/b, test/x]` disconnects (the
`test` path fails validation) but a partial `SubAck` carrying the return
code of the valid `a/b` filter IS enqueued into the connection's ack log,
contrary to the claim that no SubAck is enqueued. -/
theorem subscribe_invalid_filter_still_enqueues_suback :
    ((handle_subscribe 0 c4state 1 c4filters).map
      fun r => (r.disconnect, r.state.acklog.committed)) =
      some (true,
        [Ack.suback { pkid := 1, return_codes := [SubscribeReasonCode.QoS1] }]) := by
  decide

theorem validate_eq_of_tenant {c1 c2 : Connection}
    (h : c1.tenantPrefix = c2.tenantPrefix) (f : SubFilter) :
    validate_subscription c1 f = validate_subscription c2 f := by
  unfold validate_subscription
  rw [h]

theorem prepare_filter_frame {id : ConnectionId} {s : SubState} {cursor : Offset}
    {filter_idx : FilterIdx} {filter : Filter} {qos : Nat} {s' : SubState}
    (h : prepare_filter id s cursor filter_idx filter qos = some s') :
    s'.acklog = s.acklog ∧ s'.connection.tenantPrefix = s.connection.tenantPrefix := by
  unfold prepare_filter at h
  dsimp only [] at h
  split at h
  · injection h with h
    subst h
    exact ⟨rfl, rfl⟩
  · cases ht : (({ s with subscription_map := match alistLookup s.subscription_map filter with | some conns => alistInsert s.subscription_map filter (if id ∈ conns then conns else conns ++ [id]) | none => alistInsert s.subscription_map filter [id] } : SubState).scheduler.track id { filter := filter, filter_idx := filter_idx, qos := qos, cursor := cursor, read_count := 0, max_count := 100 }) with
    | none =>
      rw [ht] at h
      exact Option.noConfusion h
    | some sched =>
      rw [ht] at h
      simp only [Option.some_bind] at h
      cases hr : sched.reschedule id ScheduleReason.NewFilter with
      | none =>
        rw [hr] at h
        exact Option.noConfusion h
      | some sched2 =>
        rw [hr] at h
        injection h with h
        subst h
        exact ⟨rfl, rfl⟩

theorem takeWhile_congr_mem {α : Type} {p q : α → Bool} :
    ∀ {l : List α}, (∀ a ∈ l, p a = q a) → l.takeWhile p = l.takeWhile q := by
  intro l
  induction l with
  | nil => intro _; rfl
  | cons a rest ih =>
    intro h
    rw [List.takeWhile_cons, List.takeWhile_cons, h a (List.mem_cons_self _ _)]
    cases q a with
    | true =>
      simp only [if_pos rfl]
      rw [ih fun b hb => h b (List.mem_cons_of_mem _ hb)]
    | false => simp

theorem subscribe_loop_invalid (id : ConnectionId) (filters : List SubFilter) :
    ∀ (s : SubState) (acc : List SubscribeReasonCode)
      (out : SubState × List SubscribeReasonCode × Bool),
      subscribe_filters_loop id s acc false filters = some out →
      (∃ f ∈ filters, validate_subscription s.connection f ≠ none) →
      out.2.2 = true ∧ out.1.acklog = s.acklog ∧
      out.2.1 = acc ++ ((filters.takeWhile
        fun f => (validate_subscription s.connection f).isNone).map
          fun f => subscribe_return_code f.qos) := by
  induction filters with
  | nil =>
    intro s acc out h hbad
    obtain ⟨f, hf, _⟩ := hbad
    cases hf
  | cons f rest ih =>
    intro s acc out h hbad
    rw [subscribe_filters_loop] at h
    cases hv : validate_subscription s.connection f with
    | some e =>
      rw [hv] at h
      injection h with h
      subst h
      refine ⟨rfl, rfl, ?_⟩
      rw [List.takeWhile_cons, hv]
      simp
    | none =>
      rw [hv] at h
      dsimp only [] at h
      cases hp : prepare_filter id { s with datalog := (s.datalog.next_native_offset f.path).2 } (s.datalog.next_native_offset f.path).1.2 (s.datalog.next_native_offset f.path).1.1 f.path f.qos.toNat with
      | none =>
        rw [hp] at h
        exact Option.noConfusion h
      | some s2 =>
        rw [hp] at h
        simp only [Option.some_bind] at h
        cases hrm : s2.datalog.handle_retained_messages f.path s2.notifications with
        | none =>
          rw [hrm] at h
          exact Option.noConfusion h
        | some dn =>
          rw [hrm] at h
          obtain ⟨hack, htp⟩ := prepare_filter_frame hp
          have htp3 : ({ s2 with datalog := dn.1, notifications := dn.2 } : SubState).connection.tenantPrefix = s.connection.tenantPrefix := htp
          have hveq : ∀ g : SubFilter,
              validate_subscription ({ s2 with datalog := dn.1, notifications := dn.2 } : SubState).connection g = validate_subscription s.connection g :=
            fun g => validate_eq_of_tenant htp3 g
          have hbad2 : ∃ g ∈ rest,
              validate_subscription ({ s2 with datalog := dn.1, notifications := dn.2 } : SubState).connection g ≠ none := by
            obtain ⟨g, hg, hgv⟩ := hbad
            rcases List.mem_cons.1 hg with hg1 | hg1
            · subst hg1
              exact absurd hv hgv
            · exact ⟨g, hg1, by rw [hveq g]; exact hgv⟩
          obtain ⟨h1, h2, h3⟩ := ih _ _ _ h hbad2
          refine ⟨h1, by rw [h2]; exact hack, ?_⟩
          rw [h3, List.takeWhile_cons, hv]
          have heq2 : (rest.takeWhile fun g => (validate_subscription ({ s2 with datalog := dn.1, notifications := dn.2 } : SubState).connection g).isNone) = rest.takeWhile fun g => (validate_subscription s.connection g).isNone := by
            apply takeWhile_congr_mem
            intro g _
            rw [hveq g]
          rw [heq2]
          simp

/-- C4 (amended): if any filter of a Subscribe packet fails validation,
the connection is disconnected, but — contrary to the claim — a single
`SubAck` is still enqueued into the connection's ack log, carrying
exactly the return codes of the (valid) filters processed before the
first invalid one (`subscribe_invalid_filter_still_enqueues_suback` is
the concrete refutation of the no-SubAck claim). -/
theorem subscribe_invalid_disconnects_with_partial_suback (id : ConnectionId)
    (s : SubState) (pkid : Nat) (filters : List SubFilter) (res : SubscribeArmResult)
    (h : handle_subscribe id s pkid filters = some res)
    (hbad : ∃ f ∈ filters, validate_subscription s.connection f ≠ none) :
    res.disconnect = true ∧
    res.state.acklog.committed = s.acklog.committed ++
      [Ack.suback { pkid := pkid, return_codes := (filters.takeWhile fun f => (validate_subscription s.connection f).isNone).map fun f => subscribe_return_code f.qos }] := by
  unfold handle_subscribe at h
  cases hloop : subscribe_filters_loop id s [] false filters with
  | none =>
    rw [hloop] at h
    exact Option.noConfusion h
  | some out =>
    rw [hloop] at h
    injection h with h
    subst h
    obtain ⟨h1, h2, h3⟩ := subscribe_loop_invalid id filters s [] out hloop hbad
    refine ⟨h1, ?_⟩
    show (out.1.acklog.suback { pkid := pkid, return_codes := out.2.1 }).committed = _
    rw [AckLog.suback, h2, h3]
    simp

/-- The concrete result of the invalid-subscribe run. -/
def c4result : SubscribeArmResult :=
  (handle_subscribe 0 c4state 1 c4filters).getD
    { state := c4state, disconnect := false, force_ack := false }

/-- Witness for the amended invalid-subscribe claim at the concrete run:
the theorem's hypotheses hold for `c4state` and `c4filters`, and yield
the partial SubAck `[QoS1]` with `disconnect = true`. -/
theorem subscribe_invalid_disconnects_with_partial_suback_witness :
    c4result.disconnect = true ∧
    c4result.state.acklog.committed = c4state.acklog.committed ++
      [Ack.suback { pkid := 1, return_codes := (c4filters.takeWhile fun f => (validate_subscription c4state.connection f).isNone).map fun f => subscribe_return_code f.qos }] :=
  subscribe_invalid_disconnects_with_partial_suback 0 c4state 1 c4filters c4result
    (by decide)
    ⟨{ path := "test/x", qos := QoS.AtMostOnce }, by decide, by decide⟩

end Rumqttd
